import Mathlib

/-!
# AnimationExperience: narration, generative music and session control

A shallow embedding of `src/components/AnimationExperience.jsx`.

* Host objects (the timer table, the speech queue, audio nodes, animation-frame
  requests) are explicit state; every host call the code makes is recorded in an
  effect log, in program order.
* Values of the JavaScript `number` type are the rationals they denote, and the
  arithmetic operators round their exact result to the nearest IEEE-754 double
  (`Number.round`).
* JavaScript strings are `String`s; `.length` counts UTF-16 code units.
-/

namespace AnimationExperience

/-! ## Regular-expression tests of `chooseHindiMaleVoice` -/

/-- Case folding of the `i` flag. The canonicalisation of a non-ASCII character never
yields an ASCII one, so folding the letters `A`–`Z` is exact for the ASCII patterns of
the source; the one non-ASCII pattern is matched as written. -/
def foldCase (c : Char) : Char := c.toLower

/-- Unanchored, case-insensitive search `/pat/i.test(s)` for a literal pattern. -/
def searchCI (pat : List Char) (s : String) : Bool :=
  decide (pat.map foldCase <:+: s.toList.map foldCase)

/-- A speech-synthesis voice; only `lang` and `name` are read. -/
structure Voice where
  lang : String
  name : String
deriving DecidableEq, Repr

/-- The test `/hi(-|_)IN/i.test(v.lang)`. -/
def langIsHiIN (v : Voice) : Bool :=
  searchCI "hi-IN".toList v.lang || searchCI "hi_IN".toList v.lang

/-- The test `/male|…/i.test(v.name)`. The second alternative is a five-character
non-ASCII literal that the source file no longer holds in readable form; it is the
parameter `maleWord`. The search is unanchored, as in every test of the function. -/
def nameIsMale (maleWord : List Char) (v : Voice) : Bool :=
  searchCI "male".toList v.name || searchCI maleWord v.name

/-- The test `/Google|Microsoft|Apple/i.test(v.name)`. -/
def nameIsVendor (v : Voice) : Bool :=
  searchCI "Google".toList v.name || searchCI "Microsoft".toList v.name
    || searchCI "Apple".toList v.name

/-- The test `/hi/i.test(v.lang)`. -/
def langHasHi (v : Voice) : Bool := searchCI "hi".toList v.lang

/-- The array `priorityMatches`. -/
def priorityMatches (maleWord : List Char) : List (Voice → Bool) :=
  [ fun v => langIsHiIN v && nameIsMale maleWord v,
    fun v => langIsHiIN v && nameIsVendor v,
    fun v => langHasHi v ]

/-- The loop `for (const matcher of priorityMatches)`: the first matcher that finds a
voice decides. -/
def firstMatch : List (Voice → Bool) → List Voice → Option Voice
  | [], _ => none
  | matcher :: rest, voices =>
    match voices.find? matcher with
    | some voice => some voice
    | none => firstMatch rest voices

/-- The function `chooseHindiMaleVoice`, with the result of `getVoices()` as argument;
`none` is `null`. -/
def chooseHindiMaleVoice (maleWord : List Char) (voices : List Voice) : Option Voice :=
  match firstMatch (priorityMatches maleWord) voices with
  | some voice => some voice
  | none => voices.head?

/-- Index of the first matcher of `priorityMatches` a voice satisfies; `3` when it
satisfies none. The classes are those of the code's own tests, which search anywhere
in the tag or name. -/
def voiceClass (maleWord : List Char) (v : Voice) : Nat :=
  if langIsHiIN v && nameIsMale maleWord v then 0
  else if langIsHiIN v && nameIsVendor v then 1
  else if langHasHi v then 2
  else 3

/-- Class (3) in the words of the specification: the language tag begins with `hi`. -/
def langPrefixIsHi (v : Voice) : Bool :=
  ("hi".toList).isPrefixOf (v.lang.toList.map foldCase)

/-- The selection policy with class (3) in the words of the specification: the first
voice of the highest-priority non-empty class, class (3) being the voices whose
language tag begins with `hi`. Classes (1) and (2) are tested as the code tests them. -/
def specChooseVoice (maleWord : List Char) (voices : List Voice) : Option Voice :=
  match voices.find? (fun v => langIsHiIN v && nameIsMale maleWord v) with
  | some v => some v
  | none =>
    match voices.find? (fun v => langIsHiIN v && nameIsVendor v) with
    | some v => some v
    | none =>
      match voices.find? langPrefixIsHi with
      | some v => some v
      | none => voices.head?

/-! ## Numbers -/

/-- The value of a JavaScript number (a finite double is a rational). -/
abbrev Number := ℚ

/-- Round to the nearest integer, ties to the even one. -/
def roundHalfEven (q : ℚ) : ℤ :=
  if q - ⌊q⌋ < 1 / 2 then ⌊q⌋
  else if 1 / 2 < q - ⌊q⌋ then ⌊q⌋ + 1
  else if ⌊q⌋ % 2 = 0 then ⌊q⌋ else ⌊q⌋ + 1

/-- Exponent of the binade of `x`; below `2 ^ (-1022)` the doubles are subnormal and
keep the spacing of the lowest binade. -/
def binade (x : ℚ) : ℤ := max (Int.log 2 |x|) (-1022)

/-- Spacing of the doubles around `x`: 53 significant bits. -/
def ulp (x : ℚ) : ℚ := (2 : ℚ) ^ (binade x - 52)

/-- IEEE-754 binary64 rounding, to nearest with ties to even, of an exact result.
Overflow to `Infinity` is not modelled. -/
def Number.round (x : ℚ) : Number := roundHalfEven (x / ulp x) * ulp x

/-- The operator `+` of the source. -/
def Number.add (a b : Number) : Number := Number.round (a + b)

/-- The operator `*` of the source. -/
def Number.mul (a b : Number) : Number := Number.round (a * b)

/-- A decimal literal of the source denotes the double nearest to it. -/
def lit (q : ℚ) : Number := Number.round q

/-- The property `.length` of a string: the number of UTF-16 code units. -/
def jsLength (s : String) : Nat :=
  (s.toList.map fun c => if c.toNat < 65536 then 1 else 2).sum

/-! ## `speakHindiLines` -/

/-- The host window: which capabilities exist, and the voices `getVoices()` returns. -/
structure Window where
  hasSpeech : Bool
  hasAudio : Bool
  voices : List Voice

/-- One narration line `{ t, text }`. -/
structure Line where
  t : Number
  text : String
deriving DecidableEq

/-- The two callbacks `speakHindiLines` hands to `schedule`. -/
inductive TimerFn where
  | lineEvent (text : String)
  | clearCaption
deriving DecidableEq

/-- An armed timer: the identifier `setTimeout` returned, the delay it was given, and
the callback wrapped by `schedule`. -/
structure Timer where
  id : Nat
  delayMs : Number
  fn : TimerFn
deriving DecidableEq

/-- The utterance built by `triggerSpeak`. -/
structure Utterance where
  text : String
  voice : Option Voice
  lang : String
  rate : Number
  pitch : Number
deriving DecidableEq

/-- Calls observable outside `speakHindiLines`. -/
inductive Effect where
  | onCaption (text : String)
  | triggerSpeak (text : String)
  | speak (u : Utterance)
  | clearTimeout (id : Nat)
  | speechCancel
deriving DecidableEq

/-- The closure state of one `speakHindiLines` call (`cancelled`, `timeouts`), the host
timers it armed, and the log of its effects. -/
structure Narration where
  cancelled : Bool
  timeouts : List Nat
  timers : List Timer
  nextId : Nat
  log : List Effect
deriving DecidableEq

/-- The closure `schedule(delayMs, fn)`: arm a timer and push its identifier. -/
def schedule (s : Narration) (delayMs : Number) (fn : TimerFn) : Narration :=
  { s with
    timers := s.timers ++ [⟨s.nextId, delayMs, fn⟩]
    timeouts := s.timeouts ++ [s.nextId]
    nextId := s.nextId + 1 }

/-- The utterance `triggerSpeak(text)` builds: the chosen voice when there is one, its
language or `'hi-IN'`, rate and pitch `0.95`. -/
def utterance (maleWord : List Char) (w : Window) (text : String) : Utterance :=
  let voice := chooseHindiMaleVoice maleWord w.voices
  let lang := match voice with
    | some v => if v.lang = "" then "hi-IN" else v.lang
    | none => "hi-IN"
  ⟨text, voice, lang, lit (95 / 100), lit (95 / 100)⟩

/-- The closure `triggerSpeak(text)`: nothing without the speech capability, otherwise one
`speechSynthesis.speak` call. The call of `triggerSpeak` itself is logged first. -/
def triggerSpeak (maleWord : List Char) (w : Window) (s : Narration) (text : String) :
    Narration :=
  let s := { s with log := s.log ++ [.triggerSpeak text] }
  if !w.hasSpeech then s
  else { s with log := s.log ++ [.speak (utterance maleWord w text)] }

/-- Body of a scheduled callback. -/
def runTimerFn (maleWord : List Char) (w : Window) (s : Narration) : TimerFn → Narration
  | .lineEvent text =>
    triggerSpeak maleWord w { s with log := s.log ++ [.onCaption text] } text
  | .clearCaption => { s with log := s.log ++ [.onCaption ""] }

/-- The wrapper `() => { if (!cancelled) fn(); }` that `schedule` arms. -/
def fireTimer (maleWord : List Char) (w : Window) (s : Narration) (tm : Timer) :
    Narration :=
  if s.cancelled then s else runTimerFn maleWord w s tm.fn

/-- The host runs the callback of the timer `id`. A timer the host has been told to
clear may still be run here: that is the callback already in flight at cancellation. -/
def fire (maleWord : List Char) (w : Window) (s : Narration) (id : Nat) : Narration :=
  match s.timers.find? (fun tm => tm.id = id) with
  | some tm => fireTimer maleWord w s tm
  | none => s

/-- Body of `lines.forEach`: one `schedule` call for the line. -/
def scheduleLine (s : Narration) (item : Line) : Narration :=
  schedule s (Number.mul item.t 1000) (.lineEvent item.text)

/-- The function `speakHindiLines(lines, onCaption)` up to its `return`; `firstId` is the identifier
the host hands out next. -/
def speakHindiLines (firstId : Nat) (lines : List Line) : Narration :=
  let s := lines.foldl scheduleLine
    { cancelled := false, timeouts := [], timers := [], nextId := firstId, log := [] }
  match lines.getLast? with
  | some last =>
    schedule s
      (Number.mul (Number.add last.t (max 3 (Number.mul (jsLength last.text) (lit (8 / 100)))))
        1000)
      .clearCaption
  | none => s

/-- The function `speakHindiLines` returns. -/
def cancel (w : Window) (s : Narration) : Narration :=
  { s with
    cancelled := true
    log := s.log ++ s.timeouts.map .clearTimeout
      ++ (if w.hasSpeech then [.speechCancel] else []) }

/-- What can happen to a narration after `speakHindiLines` returned. -/
inductive NarrationEvent where
  | timerFires (id : Nat)
  | cancelCalled
deriving DecidableEq

/-- One event. -/
def narrationStep (maleWord : List Char) (w : Window) (s : Narration) :
    NarrationEvent → Narration
  | .timerFires id => fire maleWord w s id
  | .cancelCalled => cancel w s

/-- A sequence of events, in order. -/
def narrationRun (maleWord : List Char) (w : Window) (s : Narration)
    (evs : List NarrationEvent) : Narration :=
  evs.foldl (narrationStep maleWord w) s

/-- The delay the host applies: a negative timeout counts as `0`. -/
def hostDelay (tm : Timer) : Number := max tm.delayMs 0

/-- The order in which the host runs timers armed in the same task: by delay, and by
arming order among equal delays. -/
def hostOrder (timers : List Timer) : List Timer :=
  timers.insertionSort (fun a b => hostDelay a ≤ hostDelay b)

/-- The host runs every armed timer once and nothing else happens. -/
def runAll (maleWord : List Char) (w : Window) (s : Narration) : Narration :=
  (hostOrder s.timers).foldl (fireTimer maleWord w) s

/-- An effect is a caption delivery or a speech trigger. -/
def Effect.isDelivery : Effect → Bool
  | .onCaption _ => true
  | .triggerSpeak _ => true
  | .speak _ => true
  | _ => false

/-- Texts passed to `onCaption`, in order. -/
def captions (log : List Effect) : List String :=
  log.filterMap fun e => match e with
    | .onCaption text => some text
    | _ => none

/-- Texts passed to `triggerSpeak`, in order. -/
def spoken (log : List Effect) : List String :=
  log.filterMap fun e => match e with
    | .triggerSpeak text => some text
    | _ => none

/-- The timers of the line events: the `k`-th line gets identifier `firstId + k`,
delay `t * 1000` and the caption-and-speech callback of its text. -/
def lineTimers : Nat → List Line → List Timer
  | _, [] => []
  | firstId, item :: rest =>
    ⟨firstId, Number.mul item.t 1000, .lineEvent item.text⟩ :: lineTimers (firstId + 1) rest

/-- Host calls made inside `triggerSpeak(text)`. -/
def speechCalls (maleWord : List Char) (w : Window) (text : String) : List Effect :=
  if w.hasSpeech then [.speak (utterance maleWord w text)] else []

/-- Effects of one scheduled callback when it runs uncancelled. -/
def timerEffects (maleWord : List Char) (w : Window) : TimerFn → List Effect
  | .lineEvent text => .onCaption text :: .triggerSpeak text :: speechCalls maleWord w text
  | .clearCaption => [.onCaption ""]

/-- The text a callback passes to `onCaption`. -/
def TimerFn.caption : TimerFn → String
  | .lineEvent text => text
  | .clearCaption => ""

/-- The text a callback passes to `triggerSpeak`, when it calls it. -/
def TimerFn.speech : TimerFn → Option String
  | .lineEvent text => some text
  | .clearCaption => none

/-! ## `startGenerativeMusic` -/

/-- The rate of a pad's low-frequency oscillator, `0.09 + Math.random() * 0.04`, for
the value `r` drawn. -/
def lfoRate (r : Number) : Number :=
  Number.add (lit (9 / 100)) (Number.mul r (lit (4 / 100)))

/-- The modulation depth of a pad, `6 + Math.random() * 10`. -/
def lfoDepth (r : Number) : Number := Number.add 6 (Number.mul r 10)

/-- The target of a swell, `Math.random() * 0.08 + 0.02`. -/
def swellTarget (r : Number) : Number :=
  Number.add (Number.mul r (lit (8 / 100))) (lit (2 / 100))

/-- The nodes of one `makePad(freq, detune)` that the code touches again: the frequency
is `220 * 2 ^ (semitones / 12)`, and the two counters are the `stop()` calls received by
the oscillator and by its low-frequency oscillator. -/
structure Pad where
  semitones : Nat
  detune : Int
  lfoRate : Number
  lfoDepth : Number
  oscStops : Nat
  lfoStops : Nat
deriving DecidableEq

/-- The object `startGenerativeMusic` returns, with the state its closures share:
`running`, the swell oscillator `noise`, the ramp targets scheduled so far, and the
number of `ctx.close()` calls made. -/
structure AudioSession where
  volume : Number
  pads : List Pad
  noiseStops : Nat
  running : Bool
  swellTargets : List Number
  closeCalls : Nat
deriving DecidableEq

/-- The closure `makePad(freq, detune)`; `rand k` is the `k`-th value `Math.random()` returns. -/
def makePad (rand : Nat → Number) (k : Nat) (semitones : Nat) (detune : Int) : Pad :=
  { semitones := semitones, detune := detune
    lfoRate := lfoRate (rand k), lfoDepth := lfoDepth (rand (k + 1))
    oscStops := 0, lfoStops := 0 }

/-- One run of the function `loop` of `startGenerativeMusic`: nothing once stopped,
otherwise a ramp to a fresh random target (and a timer for the next run). -/
def swellLoop (rand : Nat → Number) (k : Nat) (s : AudioSession) : AudioSession :=
  if !s.running then s
  else { s with swellTargets := s.swellTargets ++ [swellTarget (rand k)] }

/-- The function `startGenerativeMusic({ volume })` when an audio context can be created: four
pads, the swell oscillator, and the first run of `loop`. It consumes nine random
draws, from `rand k` on. -/
def startGenerativeMusic (rand : Nat → Number) (k : Nat) (volume : Number) : AudioSession :=
  swellLoop rand (k + 8)
    { volume := volume
      pads := [makePad rand k 0 (-4), makePad rand (k + 2) 3 0,
               makePad rand (k + 4) 7 3, makePad rand (k + 6) 10 (-7)]
      noiseStops := 0
      running := true
      swellTargets := []
      closeCalls := 0 }

/-- The `stop` of a pad: `osc.stop(); lfo.stop()`. Both nodes were started by
`makePad`, so neither call throws. -/
def Pad.stop (p : Pad) : Pad :=
  { p with oscStops := p.oscStops + 1, lfoStops := p.lfoStops + 1 }

/-- The `stop` of the session: clear `running`, stop every pad and the swell
oscillator, then `ctx.close()`. -/
def AudioSession.stop (s : AudioSession) : AudioSession :=
  { s with
    running := false
    pads := s.pads.map Pad.stop
    noiseStops := s.noiseStops + 1
    closeCalls := s.closeCalls + 1 }

/-! ## The component `AnimationExperience` and `startAnimation` -/

/-- The state `startAnimation` keeps: its own local `rafRef.current`, and the number of
frames drawn. -/
structure RenderLoop where
  rafRef : Nat
  frames : Nat
deriving DecidableEq

/-- Calls of `startGenerativeMusic` and of a session's `stop`, by session index. -/
inductive AudioEvent where
  | started (session : Nat)
  | stopped (session : Nat)
deriving DecidableEq

/-- The component's state and refs, the objects they point to, and the host tables
they act on. `musicRef` and `cleanupSpeechRef` hold indices into `sessions` and
`narrations`; `cleanupSpeechRef = none` is the initial `() => {}`. `rafRef` is the
component's `useRef(0)`. -/
structure Controller where
  started : Bool
  muted : Bool
  musicRef : Option Nat
  cleanupSpeechRef : Option Nat
  rafRef : Nat
  sessions : List AudioSession
  narrations : List Narration
  loops : List RenderLoop
  pendingFrames : List Nat
  nextFrame : Nat
  resizeListeners : List Nat
  nextTimer : Nat
  nextRandom : Nat
  audioLog : List AudioEvent
deriving DecidableEq

/-- The component when mounted. Host handles are positive integers. -/
def Controller.init : Controller :=
  { started := false, muted := false, musicRef := none, cleanupSpeechRef := none
    rafRef := 0, sessions := [], narrations := [], loops := []
    pendingFrames := [], nextFrame := 1, resizeListeners := []
    nextTimer := 1, nextRandom := 0, audioLog := [] }

/-- The statement `try { musicRef.current = startGenerativeMusic({ volume: 0.14 }) }
catch (_) {}`: without an audio context the constructor throws and nothing changes. -/
def tryStartMusic (w : Window) (rand : Nat → Number) (c : Controller) : Controller :=
  if !w.hasAudio then c
  else
    { c with
      musicRef := some c.sessions.length
      sessions := c.sessions ++ [startGenerativeMusic rand c.nextRandom (lit (14 / 100))]
      nextRandom := c.nextRandom + 9
      nextTimer := c.nextTimer + 1
      audioLog := c.audioLog ++ [.started c.sessions.length] }

/-- The statement `musicRef.current?.stop?.()`. -/
def stopMusic (c : Controller) : Controller :=
  match c.musicRef with
  | none => c
  | some i =>
    { c with
      sessions := c.sessions.modify AudioSession.stop i
      audioLog := c.audioLog ++ [.stopped i] }

/-- The narration script of `startAll`; the texts are the bytes the source file holds. -/
def script : List Line :=
  [ ⟨lit (6 / 10), "??? ???? ??, ?? ?????? ??? ????? ???"⟩,
    ⟨lit (55 / 10), "??? ???? ????????? ??????? ?? ??? ?? ??????"⟩,
    ⟨lit (115 / 10), "????? ?? ????? ??????? ?? ?? ????? ???"⟩,
    ⟨lit (175 / 10), "????? ???, ???? ??? ?? ????? ????"⟩,
    ⟨lit (235 / 10), "?? ??? ?? ???, ?? ??? ??????? ???? ???, ????? ?????"⟩,
    ⟨lit 31, "????? ?? ???? ?????? ???? ???? ??, ???? ??? ????? ?? ???? ???"⟩,
    ⟨lit 38, "???????? ????? ??? ??? ??? ????? ?? ?? ????? ?? ?? ??? ?????"⟩,
    ⟨lit 46, "???, ??? ???? ????? ?????? ?? ???? ?? ???????"⟩ ]

/-- The function `startAnimation(canvasRef)` as far as frames and listeners go: add the resize
listener, request the first frame and keep its handle in the local `rafRef`. -/
def startAnimation (c : Controller) : Controller :=
  { c with
    loops := c.loops ++ [⟨c.nextFrame, 0⟩]
    resizeListeners := c.resizeListeners ++ [c.loops.length]
    pendingFrames := c.pendingFrames ++ [c.nextFrame]
    nextFrame := c.nextFrame + 1 }

/-- The function `startAnimation` returns, for the loop `i`:
`cancelAnimationFrame(rafRef.current); removeEventListener('resize', onResize)`. -/
def cancelAnimation (c : Controller) (i : Nat) : Controller :=
  match c.loops[i]? with
  | none => c
  | some loop =>
    { c with
      pendingFrames := c.pendingFrames.filter (fun h => h ≠ loop.rafRef)
      resizeListeners := c.resizeListeners.filter (fun j => j ≠ i) }

/-- The handler `startAll`: music unless muted, then narration, then animation. The function
`startAnimation` returns is dropped. -/
def startAll (w : Window) (rand : Nat → Number) (c : Controller) : Controller :=
  let c := { c with started := true }
  let c := if !c.muted then tryStartMusic w rand c else c
  let narration := speakHindiLines c.nextTimer script
  let c := { c with
    cleanupSpeechRef := some c.narrations.length
    narrations := c.narrations ++ [narration]
    nextTimer := narration.nextId }
  startAnimation c

/-- The handler `toggleMute`: unmuting starts a session, muting stops the one in
`musicRef`. -/
def toggleMute (w : Window) (rand : Nat → Number) (c : Controller) : Controller :=
  if c.muted then tryStartMusic w rand { c with muted := false }
  else stopMusic { c with muted := true }

/-- First statement of the cleanup: `cancelAnimationFrame(rafRef.current)`, on the
component's own `rafRef`. -/
def cancelComponentFrame (c : Controller) : Controller :=
  { c with pendingFrames := c.pendingFrames.filter (fun h => h ≠ c.rafRef) }

/-- Second statement of the cleanup: `cleanupSpeechRef.current?.()`. -/
def cleanupSpeech (w : Window) (c : Controller) : Controller :=
  match c.cleanupSpeechRef with
  | none => c
  | some i => { c with narrations := c.narrations.modify (cancel w) i }

/-- The cleanup of the component's effect, run at unmount: the three statements in
order, the last being `musicRef.current?.stop?.()`. -/
def unmount (w : Window) (c : Controller) : Controller :=
  stopMusic (cleanupSpeech w (cancelComponentFrame c))

/-- The host runs the frame callback with handle `h`: the loop that requested it
draws and requests the next frame, keeping the new handle in its local `rafRef`. -/
def animationFrame (c : Controller) (h : Nat) : Controller :=
  if h ∈ c.pendingFrames then
    { c with
      loops := c.loops.map (fun loop =>
        if loop.rafRef = h then ⟨c.nextFrame, loop.frames + 1⟩ else loop)
      pendingFrames := c.pendingFrames.filter (fun k => k ≠ h) ++ [c.nextFrame]
      nextFrame := c.nextFrame + 1 }
  else c

/-- What can happen to the mounted component. -/
inductive ControllerEvent where
  | clickStart
  | clickMute
  | frame (h : Nat)
  | unmount
deriving DecidableEq

/-- One event. The Start button is rendered only while `started` is false. -/
def Controller.step (w : Window) (rand : Nat → Number) (c : Controller) :
    ControllerEvent → Controller
  | .clickStart => if c.started then c else startAll w rand c
  | .clickMute => toggleMute w rand c
  | .frame h => animationFrame c h
  | .unmount => AnimationExperience.unmount w c

/-- A sequence of events from the mounted component. -/
def Controller.run (w : Window) (rand : Nat → Number) (evs : List ControllerEvent) :
    Controller :=
  evs.foldl (Controller.step w rand) Controller.init

/-- Sessions that were started and not stopped. -/
def activeSessions (c : Controller) : List AudioSession :=
  c.sessions.filter (fun s => s.running)

/-- No `started` is logged while an earlier session has not been stopped. -/
def noOverlap : Option Nat → List AudioEvent → Bool
  | _, [] => true
  | active, .started i :: rest => active.isNone && noOverlap (some i) rest
  | active, .stopped i :: rest => noOverlap (if active = some i then none else active) rest

/-- The session left running by a log of audio events, starting from `active`. -/
def activeAfter : Option Nat → List AudioEvent → Option Nat
  | active, [] => active
  | _, .started i :: rest => activeAfter (some i) rest
  | active, .stopped i :: rest => activeAfter (if active = some i then none else active) rest

/-- What holds of the audio log once the component has been started with no session
alive: sessions never overlap, and a session is running only while unmuted, when it is
the one `musicRef` holds. -/
def AudioInvariant (c : Controller) : Prop :=
  c.started = true ∧ noOverlap none c.audioLog = true
    ∧ (activeAfter none c.audioLog = none
        ∨ (c.muted = false ∧ activeAfter none c.audioLog = c.musicRef))

/-- What holds of the animation frames of the mounted component: the component's
`rafRef` is never written, host handles are positive, and once started a frame request
is pending and a resize listener registered. -/
def FrameInvariant (c : Controller) : Prop :=
  c.rafRef = 0 ∧ 1 ≤ c.nextFrame ∧ (∀ h ∈ c.pendingFrames, 1 ≤ h)
    ∧ (c.started = true → c.pendingFrames ≠ [] ∧ c.resizeListeners ≠ [])

/-! ## Lemmas on the narration -/

/-! ### The narration: timers armed, callbacks, cancellation -/

theorem foldl_schedule_timers (lines : List Line) (s : Narration) :
    (lines.foldl scheduleLine s).timers = s.timers ++ lineTimers s.nextId lines
    ∧ (lines.foldl scheduleLine s).nextId = s.nextId + lines.length
    ∧ (lines.foldl scheduleLine s).cancelled = s.cancelled
    ∧ (lines.foldl scheduleLine s).log = s.log := by
  induction lines generalizing s with
  | nil => simp [lineTimers]
  | cons item rest ih =>
    obtain ⟨h1, h2, h3, h4⟩ := ih (scheduleLine s item)
    simp only [List.foldl_cons, h1, h2, h3, h4]
    simp [scheduleLine, schedule, lineTimers]
    omega

theorem speakHindiLines_timers (firstId : Nat) (lines : List Line) :
    (speakHindiLines firstId lines).timers
      = lineTimers firstId lines ++
        (match lines.getLast? with
          | some last =>
            [⟨firstId + lines.length,
              Number.mul
                (Number.add last.t (max 3 (Number.mul (jsLength last.text) (lit (8 / 100)))))
                1000,
              .clearCaption⟩]
          | none => []) := by
  obtain ⟨h1, h2, -, -⟩ := foldl_schedule_timers lines
    { cancelled := false, timeouts := [], timers := [], nextId := firstId, log := [] }
  unfold speakHindiLines
  cases lines.getLast? with
  | none => simpa using h1
  | some last =>
    simp only [schedule, h1, h2]
    simp

theorem speakHindiLines_fresh (firstId : Nat) (lines : List Line) :
    (speakHindiLines firstId lines).cancelled = false
      ∧ (speakHindiLines firstId lines).log = [] := by
  obtain ⟨-, -, h3, h4⟩ := foldl_schedule_timers lines
    { cancelled := false, timeouts := [], timers := [], nextId := firstId, log := [] }
  unfold speakHindiLines
  cases lines.getLast? with
  | none => exact ⟨by simpa using h3, by simpa using h4⟩
  | some last => exact ⟨by simpa [schedule] using h3, by simpa [schedule] using h4⟩

theorem triggerSpeak_log (maleWord : List Char) (w : Window) (s : Narration) (text : String) :
    (triggerSpeak maleWord w s text).log
      = s.log ++ .triggerSpeak text :: speechCalls maleWord w text
    ∧ (triggerSpeak maleWord w s text).cancelled = s.cancelled
    ∧ (triggerSpeak maleWord w s text).timers = s.timers := by
  unfold speechCalls triggerSpeak
  cases w.hasSpeech <;> simp

theorem speechCalls_no_caption (maleWord : List Char) (w : Window) (text : String) :
    ∀ e ∈ speechCalls maleWord w text, ∃ u : Utterance, e = .speak u ∧ u.text = text := by
  unfold speechCalls
  cases w.hasSpeech <;> simp [utterance]

theorem fireTimer_live (maleWord : List Char) (w : Window) (s : Narration) (tm : Timer)
    (h : s.cancelled = false) :
    (fireTimer maleWord w s tm).log = s.log ++ timerEffects maleWord w tm.fn
    ∧ (fireTimer maleWord w s tm).cancelled = false := by
  unfold fireTimer
  rw [h]
  cases htm : tm.fn with
  | lineEvent text =>
    simp only [Bool.false_eq_true, if_false, runTimerFn, timerEffects]
    obtain ⟨h1, h2, -⟩ := triggerSpeak_log maleWord w
      { s with log := s.log ++ [.onCaption text] } text
    rw [h1, h2]
    simp [h]
  | clearCaption => simp [runTimerFn, timerEffects, h]

theorem fireTimer_cancelled (maleWord : List Char) (w : Window) (s : Narration) (tm : Timer)
    (h : s.cancelled = true) : fireTimer maleWord w s tm = s := by
  simp [fireTimer, h]

theorem run_cancelled (maleWord : List Char) (w : Window) (post : List NarrationEvent)
    (s : Narration) (h : s.cancelled = true) :
    (narrationRun maleWord w s post).cancelled = true
    ∧ ∃ extra, (narrationRun maleWord w s post).log = s.log ++ extra
        ∧ ∀ e ∈ extra, (∃ id, e = .clearTimeout id) ∨ e = .speechCancel := by
  induction post generalizing s with
  | nil => exact ⟨h, [], by simp [narrationRun], by simp⟩
  | cons ev rest ih =>
    cases ev with
    | timerFires id =>
      have hs : narrationStep maleWord w s (.timerFires id) = s := by
        simp only [narrationStep, fire]
        cases s.timers.find? (fun tm => tm.id = id) with
        | none => rfl
        | some tm => exact fireTimer_cancelled maleWord w s tm h
      simpa [narrationRun, hs] using ih s h
    | cancelCalled =>
      obtain ⟨h1, extra, h2, h3⟩ := ih (cancel w s) (by simp [cancel])
      refine ⟨by simpa [narrationRun] using h1, ?_⟩
      refine ⟨s.timeouts.map .clearTimeout ++ (if w.hasSpeech then [.speechCancel] else [])
        ++ extra, ?_, ?_⟩
      · simp only [narrationRun, List.foldl_cons, narrationStep] at h2 ⊢
        rw [h2]
        simp [cancel]
      · intro e he
        simp only [List.mem_append, List.mem_map] at he
        rcases he with (⟨id, -, rfl⟩ | he) | he
        · exact Or.inl ⟨id, rfl⟩
        · split at he
          · exact Or.inr (by simpa using he)
          · simp at he
        · exact h3 e he

/-- C1. Once the cancel function returned by `speakHindiLines` has been invoked, no
`onCaption` call and no speech trigger occurs any more, whatever timers fire afterwards
and in whatever order, timers armed before the cancellation included: for every script,
every sequence `pre` of events before the cancellation and every sequence `post` after
it, the log after `post` is the log at the cancellation followed only by `clearTimeout`
and `speechSynthesis.cancel` calls (those of repeated cancellations). -/
theorem no_delivery_after_cancel (maleWord : List Char) (w : Window) (firstId : Nat)
    (lines : List Line) (pre post : List NarrationEvent) :
    ∃ extra,
      (narrationRun maleWord w (speakHindiLines firstId lines)
          (pre ++ .cancelCalled :: post)).log
        = (narrationRun maleWord w (speakHindiLines firstId lines)
            (pre ++ [.cancelCalled])).log ++ extra
      ∧ (∀ e ∈ extra, e.isDelivery = false)
      ∧ captions extra = [] ∧ spoken extra = [] := by
  have hc : (narrationRun maleWord w (speakHindiLines firstId lines)
      (pre ++ [.cancelCalled])).cancelled = true := by
    simp [narrationRun, narrationStep, cancel]
  obtain ⟨-, extra, h2, h3⟩ := run_cancelled maleWord w post _ hc
  refine ⟨extra, ?_, ?_, ?_, ?_⟩
  · rw [← h2]
    simp [narrationRun, List.foldl_append]
  · intro e he
    rcases h3 e he with ⟨id, rfl⟩ | rfl <;> rfl
  · simp only [captions, List.filterMap_eq_nil_iff]
    intro e he
    rcases h3 e he with ⟨id, rfl⟩ | rfl <;> rfl
  · simp only [spoken, List.filterMap_eq_nil_iff]
    intro e he
    rcases h3 e he with ⟨id, rfl⟩ | rfl <;> rfl

theorem lineTimers_eq_enum (firstId : Nat) (lines : List Line) :
    lineTimers firstId lines
      = (lines.enumFrom firstId).map
          (fun p => ⟨p.1, Number.mul p.2.t 1000, .lineEvent p.2.text⟩) := by
  induction lines generalizing firstId with
  | nil => rfl
  | cons item rest ih => simp [lineTimers, List.enumFrom, ih]

theorem foldl_fireTimer_live (maleWord : List Char) (w : Window) (tms : List Timer)
    (s : Narration) (h : s.cancelled = false) :
    (tms.foldl (fireTimer maleWord w) s).log
      = s.log ++ tms.flatMap (fun tm => timerEffects maleWord w tm.fn) := by
  induction tms generalizing s with
  | nil => simp
  | cons tm rest ih =>
    obtain ⟨h1, h2⟩ := fireTimer_live maleWord w s tm h
    rw [List.foldl_cons, ih _ h2, h1]
    simp

theorem captions_timerEffects (maleWord : List Char) (w : Window) (tms : List Timer) :
    captions (tms.flatMap (fun tm => timerEffects maleWord w tm.fn))
      = tms.map (fun tm => tm.fn.caption) := by
  induction tms with
  | nil => rfl
  | cons tm rest ih =>
    have hs : ∀ text, captions (speechCalls maleWord w text) = [] := by
      intro text
      unfold speechCalls captions
      split <;> simp
    simp only [captions] at ih hs ⊢
    rw [List.flatMap_cons, List.filterMap_append, ih]
    cases htm : tm.fn with
    | lineEvent text => simp [timerEffects, hs, htm, TimerFn.caption]
    | clearCaption => simp [timerEffects, htm, TimerFn.caption]

theorem spoken_timerEffects (maleWord : List Char) (w : Window) (tms : List Timer) :
    spoken (tms.flatMap (fun tm => timerEffects maleWord w tm.fn))
      = tms.filterMap (fun tm => tm.fn.speech) := by
  induction tms with
  | nil => rfl
  | cons tm rest ih =>
    have hs : ∀ text, spoken (speechCalls maleWord w text) = [] := by
      intro text
      unfold speechCalls spoken
      split <;> simp
    simp only [spoken] at ih hs ⊢
    rw [List.flatMap_cons, List.filterMap_append, ih]
    cases htm : tm.fn with
    | lineEvent text => simp [timerEffects, hs, htm, TimerFn.speech]
    | clearCaption => simp [timerEffects, htm, TimerFn.speech]

theorem lineTimers_texts (firstId : Nat) (lines : List Line) :
    (lineTimers firstId lines).map (fun tm => tm.fn.caption)
      = lines.map (fun item => item.text)
    ∧ (lineTimers firstId lines).filterMap (fun tm => tm.fn.speech)
      = lines.map (fun item => item.text) := by
  induction lines generalizing firstId with
  | nil => exact ⟨rfl, rfl⟩
  | cons item rest ih =>
    obtain ⟨h1, h2⟩ := ih (firstId + 1)
    constructor
    · rw [lineTimers, List.map_cons, h1]
      rfl
    · exact congrArg (List.cons item.text) h2

theorem runAll_log (maleWord : List Char) (w : Window) (firstId : Nat) (lines : List Line) :
    (runAll maleWord w (speakHindiLines firstId lines)).log
      = (hostOrder (speakHindiLines firstId lines).timers).flatMap
          (fun tm => timerEffects maleWord w tm.fn) := by
  obtain ⟨h1, h2⟩ := speakHindiLines_fresh firstId lines
  unfold runAll
  rw [foldl_fireTimer_live maleWord w _ _ h1, h2]
  simp

/-- C4. With no cancellation, `speakHindiLines` arms exactly one timer per line, in
script order, with delay `t * 1000` (any further timer is the caption-clearing one);
a line timer that fires calls `onCaption(text)` first, then the speech trigger for the
same text, and nothing else but the host's `speak` call; and when the host has run
every timer once, each line has been captioned and spoken exactly once, lines with
equal offsets included: the spoken texts are a permutation of the script's texts, and
the captions are those texts and the final `''`. Negative offsets are not excluded. -/
theorem each_line_fires_once (maleWord : List Char) (w : Window) (firstId : Nat)
    (lines : List Line) :
    (∃ tail, (speakHindiLines firstId lines).timers
        = (lines.enumFrom firstId).map
            (fun p => ⟨p.1, Number.mul p.2.t 1000, .lineEvent p.2.text⟩) ++ tail
        ∧ tail.all (fun tm => tm.fn = .clearCaption) = true)
    ∧ (∀ (s : Narration) (id : Nat) (delay : Number) (text : String),
        (fireTimer maleWord w { s with cancelled := false } ⟨id, delay, .lineEvent text⟩).log
          = s.log ++ .onCaption text :: .triggerSpeak text :: speechCalls maleWord w text
        ∧ captions (speechCalls maleWord w text) = []
        ∧ spoken (speechCalls maleWord w text) = [])
    ∧ (runAll maleWord w (speakHindiLines firstId lines)).log
        = (hostOrder (speakHindiLines firstId lines).timers).flatMap
            (fun tm => timerEffects maleWord w tm.fn)
    ∧ (hostOrder (speakHindiLines firstId lines).timers).Perm
        (speakHindiLines firstId lines).timers
    ∧ (spoken (runAll maleWord w (speakHindiLines firstId lines)).log).Perm
        (lines.map (fun item => item.text))
    ∧ (captions (runAll maleWord w (speakHindiLines firstId lines)).log).Perm
        (lines.map (fun item => item.text) ++ (if lines = [] then [] else [""])) := by
  have hperm : (hostOrder (speakHindiLines firstId lines).timers).Perm
      (speakHindiLines firstId lines).timers := List.perm_insertionSort _ _
  have htimers := speakHindiLines_timers firstId lines
  obtain ⟨ht1, ht2⟩ := lineTimers_texts firstId lines
  refine ⟨?_, ?_, runAll_log maleWord w firstId lines, hperm, ?_, ?_⟩
  · refine ⟨_, by rw [htimers, lineTimers_eq_enum], ?_⟩
    cases lines.getLast? <;> simp
  · intro s id delay text
    refine ⟨?_, ?_, ?_⟩
    · exact (fireTimer_live maleWord w { s with cancelled := false }
        ⟨id, delay, .lineEvent text⟩ rfl).1
    · unfold speechCalls captions
      split <;> simp
    · unfold speechCalls spoken
      split <;> simp
  · rw [runAll_log, spoken_timerEffects]
    refine (hperm.filterMap _).trans ?_
    rw [htimers, List.filterMap_append, ht2]
    cases lines.getLast? <;> simp [TimerFn.speech]
  · rw [runAll_log, captions_timerEffects]
    refine (hperm.map _).trans ?_
    rw [htimers, List.map_append, ht1]
    cases hl : lines.getLast? with
    | none =>
      have hnil : lines = [] := List.getLast?_eq_none_iff.mp hl
      simp [hnil]
    | some last =>
      have hne : lines ≠ [] := by
        intro h
        simp [h] at hl
      simp [hne, TimerFn.caption]

theorem Number.mul_comm (a b : Number) : Number.mul a b = Number.mul b a := by
  unfold Number.mul
  rw [Rat.mul_comm]

/-- C5. For every script of length at least 1, the last timer `speakHindiLines` arms
calls `onCaption('')` and nothing else, and its delay is
`(lastOffset + max(3, 0.08 * length(lastText))) * 1000` milliseconds, for the offset
and text of the script's final line. -/
theorem last_timer_clears_caption (maleWord : List Char) (w : Window) (firstId : Nat)
    (lines : List Line) (h : lines ≠ []) :
    (speakHindiLines firstId lines).timers.getLast?
      = some ⟨firstId + lines.length,
          Number.mul
            (Number.add (lines.getLast h).t
              (max 3 (Number.mul (lit (8 / 100)) (jsLength (lines.getLast h).text))))
            1000,
          .clearCaption⟩
    ∧ (∀ (s : Narration) (id : Nat) (delay : Number),
        (fireTimer maleWord w { s with cancelled := false } ⟨id, delay, .clearCaption⟩).log
          = s.log ++ [.onCaption ""]) := by
  constructor
  · rw [speakHindiLines_timers, List.getLast?_eq_getLast _ h, Number.mul_comm (lit (8 / 100))]
    simp
  · intro s id delay
    exact (fireTimer_live maleWord w { s with cancelled := false }
      ⟨id, delay, .clearCaption⟩ rfl).1

/-- The last timer of a two-line script. -/
theorem last_timer_clears_caption_witness :
    ([⟨1, "a"⟩, ⟨2, "bc"⟩] : List Line) ≠ []
    ∧ (speakHindiLines 0 [⟨1, "a"⟩, ⟨2, "bc"⟩]).timers.getLast?
      = some ⟨0 + ([⟨1, "a"⟩, ⟨2, "bc"⟩] : List Line).length,
          Number.mul
            (Number.add (([⟨1, "a"⟩, ⟨2, "bc"⟩] : List Line).getLast (by simp)).t
              (max 3 (Number.mul (lit (8 / 100))
                (jsLength (([⟨1, "a"⟩, ⟨2, "bc"⟩] : List Line).getLast (by simp)).text))))
            1000,
          .clearCaption⟩ :=
  ⟨by simp, (last_timer_clears_caption [] ⟨true, true, []⟩ 0 [⟨1, "a"⟩, ⟨2, "bc"⟩]
    (by simp)).1⟩

/-- C9 (as amended). For an empty script `speakHindiLines` arms no timer, and whatever
happens afterwards no callback runs; the cancel function it returns still calls
`speechSynthesis.cancel()` once whenever the speech capability exists, and does
nothing at all only when it does not. -/
theorem empty_script_cancel (maleWord : List Char) (w : Window) (firstId : Nat) :
    (speakHindiLines firstId []).timers = []
    ∧ (cancel w (speakHindiLines firstId [])).log
        = (if w.hasSpeech then [.speechCancel] else [])
    ∧ (cancel w (speakHindiLines firstId [])).timers = []
    ∧ (∀ evs : List NarrationEvent,
        (narrationRun maleWord w (speakHindiLines firstId []) evs).log
          = List.replicate
              ((evs.filter (fun ev => ev = .cancelCalled)).length
                * (if w.hasSpeech then 1 else 0))
              .speechCancel) := by
  refine ⟨rfl, by simp [cancel, speakHindiLines], rfl, ?_⟩
  have key : ∀ (evs : List NarrationEvent) (s : Narration), s.timers = [] → s.timeouts = [] →
      (narrationRun maleWord w s evs).log
        = s.log ++ List.replicate
              ((evs.filter (fun ev => ev = .cancelCalled)).length
                * (if w.hasSpeech then 1 else 0))
              .speechCancel := by
    intro evs
    induction evs with
    | nil => intro s _ _; simp [narrationRun]
    | cons ev rest ih =>
      intro s h1 h2
      cases ev with
      | timerFires id =>
        have hs : narrationStep maleWord w s (.timerFires id) = s := by
          simp [narrationStep, fire, h1]
        have := ih s h1 h2
        simp only [narrationRun, List.foldl_cons, hs] at this ⊢
        rw [this]
        simp
      | cancelCalled =>
        have := ih (cancel w s) (by simpa [cancel] using h1) (by simpa [cancel] using h2)
        simp only [narrationRun, List.foldl_cons, narrationStep] at this ⊢
        rw [this]
        obtain ⟨sp, au, vs⟩ := w
        cases sp <;> simp [cancel, h2, List.replicate_succ]
  intro evs
  simpa [speakHindiLines] using key evs (speakHindiLines firstId []) rfl rfl

/-- C9, counterexample. With the speech capability present, the cancel function of an
empty script is not a no-op: it calls `speechSynthesis.cancel()` on the host. -/
theorem empty_script_cancel_not_noop :
    (speakHindiLines 0 []).log = []
    ∧ (cancel ⟨true, true, []⟩ (speakHindiLines 0 [])).log = [.speechCancel] := by
  decide

/-! ### The session controller at concrete event sequences -/

/-- C2, failing input. Mute, unmute, Start: the unmute creates a session although
nothing was started, and `startAll` creates a second one without stopping the first.
Two sessions are then running, and only the second is reachable through `musicRef`. -/
theorem two_sessions_after_unmute_then_start :
    (Controller.run ⟨true, true, []⟩ (fun _ => 0) [.clickMute, .clickMute, .clickStart]).audioLog
      = [.started 0, .started 1]
    ∧ noOverlap none
        (Controller.run ⟨true, true, []⟩ (fun _ => 0)
          [.clickMute, .clickMute, .clickStart]).audioLog = false
    ∧ (activeSessions
        (Controller.run ⟨true, true, []⟩ (fun _ => 0)
          [.clickMute, .clickMute, .clickStart])).length = 2
    ∧ (Controller.run ⟨true, true, []⟩ (fun _ => 0)
        [.clickMute, .clickMute, .clickStart]).musicRef = some 1 := by
  refine ⟨?_, ?_, ?_, ?_⟩ <;> rfl

/-- C3, failing input. Start, then unmount: the narration is cancelled and the audio
session stopped, but the frame requested by `startAnimation` is still pending and its
resize listener still registered, because the cleanup cancels the handle held in the
component's own `rafRef`, which is never written and still `0`. The function
`startAnimation` returned, which `startAll` dropped, would have removed both. -/
theorem unmount_leaves_render_loop_running :
    (Controller.run ⟨true, true, []⟩ (fun _ => 0) [.clickStart, .unmount]).rafRef = 0
    ∧ (Controller.run ⟨true, true, []⟩ (fun _ => 0) [.clickStart, .unmount]).loops
        = [⟨1, 0⟩]
    ∧ (Controller.run ⟨true, true, []⟩ (fun _ => 0) [.clickStart, .unmount]).pendingFrames
        = [1]
    ∧ (Controller.run ⟨true, true, []⟩ (fun _ => 0) [.clickStart, .unmount]).resizeListeners
        = [0]
    ∧ (Controller.run ⟨true, true, []⟩ (fun _ => 0) [.clickStart, .unmount]).narrations.map
        (fun n => n.cancelled) = [true]
    ∧ (Controller.run ⟨true, true, []⟩ (fun _ => 0) [.clickStart, .unmount]).sessions.map
        (fun s => s.running) = [false]
    ∧ (cancelAnimation
        (Controller.run ⟨true, true, []⟩ (fun _ => 0) [.clickStart, .unmount]) 0).pendingFrames
        = []
    ∧ (cancelAnimation
        (Controller.run ⟨true, true, []⟩ (fun _ => 0) [.clickStart, .unmount])
          0).resizeListeners = [] := by
  refine ⟨?_, ?_, ?_, ?_, ?_, ?_, ?_, ?_⟩ <;> rfl

/-- C7, failing input. Start, mute, unmount: the mute stops the session, and the
cleanup at unmount calls `stop()` on the same session again. Every `stop()` calls
`ctx.close()`: the context is closed twice, not once. -/
theorem second_stop_closes_context_again :
    (startGenerativeMusic (fun _ => 0) 0 (lit (14 / 100))).closeCalls = 0
    ∧ (startGenerativeMusic (fun _ => 0) 0 (lit (14 / 100))).stop.closeCalls = 1
    ∧ (startGenerativeMusic (fun _ => 0) 0 (lit (14 / 100))).stop.stop.closeCalls = 2
    ∧ (startGenerativeMusic (fun _ => 0) 0 (lit (14 / 100))).stop.stop.running = false
    ∧ (Controller.run ⟨true, true, []⟩ (fun _ => 0)
        [.clickStart, .clickMute, .unmount]).audioLog
        = [.started 0, .stopped 0, .stopped 0]
    ∧ (Controller.run ⟨true, true, []⟩ (fun _ => 0)
        [.clickStart, .clickMute, .unmount]).sessions.map (fun s => s.closeCalls) = [2] := by
  refine ⟨?_, ?_, ?_, ?_, ?_, ?_⟩ <;> rfl

/-! ### Voice selection -/

theorem find?_first (p : Voice → Bool) (voices : List Voice) (v : Voice)
    (h : voices.find? p = some v) :
    p v = true ∧ ∃ i, voices[i]? = some v
      ∧ ∀ (j : Nat) (u : Voice), j < i → voices[j]? = some u → p u = false := by
  induction voices with
  | nil => simp at h
  | cons a rest ih =>
    rw [List.find?_cons] at h
    cases hpa : p a with
    | true =>
      rw [hpa] at h
      obtain rfl : a = v := by simpa using h
      exact ⟨hpa, 0, by simp, fun j u hj => absurd hj (Nat.not_lt_zero j)⟩
    | false =>
      rw [hpa] at h
      obtain ⟨hv, i, hi, hlt⟩ := ih h
      refine ⟨hv, i + 1, by simpa using hi, ?_⟩
      intro j u hj hu
      cases j with
      | zero =>
        obtain rfl : a = u := by simpa using hu
        exact hpa
      | succ j => exact hlt j u (by omega) (by simpa using hu)

theorem find?_none_all (p : Voice → Bool) (voices : List Voice)
    (h : voices.find? p = none) (j : Nat) (u : Voice) (hu : voices[j]? = some u) :
    p u = false := by
  have hmem : u ∈ voices := List.getElem?_mem hu
  have := List.find?_eq_none.mp h u hmem
  simpa using this

theorem voiceClass_zero (maleWord : List Char) (u : Voice)
    (h0 : (langIsHiIN u && nameIsMale maleWord u) = true) : voiceClass maleWord u = 0 := by
  unfold voiceClass
  rw [if_pos h0]

theorem voiceClass_pos (maleWord : List Char) (u : Voice)
    (h0 : (langIsHiIN u && nameIsMale maleWord u) = false) : 1 ≤ voiceClass maleWord u := by
  unfold voiceClass
  rw [if_neg (by rw [h0]; decide)]
  split_ifs <;> omega

theorem voiceClass_one (maleWord : List Char) (u : Voice)
    (h0 : (langIsHiIN u && nameIsMale maleWord u) = false)
    (h1 : (langIsHiIN u && nameIsVendor u) = true) : voiceClass maleWord u = 1 := by
  unfold voiceClass
  rw [if_neg (by rw [h0]; decide), if_pos h1]

theorem voiceClass_two_le (maleWord : List Char) (u : Voice)
    (h0 : (langIsHiIN u && nameIsMale maleWord u) = false)
    (h1 : (langIsHiIN u && nameIsVendor u) = false) : 2 ≤ voiceClass maleWord u := by
  unfold voiceClass
  rw [if_neg (by rw [h0]; decide), if_neg (by rw [h1]; decide)]
  split_ifs <;> omega

theorem voiceClass_two (maleWord : List Char) (u : Voice)
    (h0 : (langIsHiIN u && nameIsMale maleWord u) = false)
    (h1 : (langIsHiIN u && nameIsVendor u) = false)
    (h2 : langHasHi u = true) : voiceClass maleWord u = 2 := by
  unfold voiceClass
  rw [if_neg (by rw [h0]; decide), if_neg (by rw [h1]; decide), if_pos h2]

theorem voiceClass_three (maleWord : List Char) (u : Voice)
    (h0 : (langIsHiIN u && nameIsMale maleWord u) = false)
    (h1 : (langIsHiIN u && nameIsVendor u) = false)
    (h2 : langHasHi u = false) : voiceClass maleWord u = 3 := by
  unfold voiceClass
  rw [if_neg (by rw [h0]; decide), if_neg (by rw [h1]; decide), if_neg (by rw [h2]; decide)]

theorem chooseHindiMaleVoice_first_of_best (maleWord : List Char) (voices : List Voice)
    (v : Voice) (hv : chooseHindiMaleVoice maleWord voices = some v) :
    ∃ i, voices[i]? = some v
      ∧ (∀ (j : Nat) (u : Voice), voices[j]? = some u →
          voiceClass maleWord v ≤ voiceClass maleWord u)
      ∧ (∀ (j : Nat) (u : Voice), j < i → voices[j]? = some u →
          voiceClass maleWord v < voiceClass maleWord u) := by
  unfold chooseHindiMaleVoice at hv
  simp only [priorityMatches, firstMatch] at hv
  cases h0 : voices.find? (fun v => langIsHiIN v && nameIsMale maleWord v) with
  | some v0 =>
    rw [h0] at hv
    obtain rfl : v0 = v := by simpa using hv
    obtain ⟨hp, i, hi, hlt⟩ := find?_first _ _ _ h0
    have hc := voiceClass_zero maleWord v0 hp
    refine ⟨i, hi, fun j u _ => by omega, fun j u hj hu => ?_⟩
    have := voiceClass_pos maleWord u (hlt j u hj hu)
    omega
  | none =>
    rw [h0] at hv
    have n0 := find?_none_all _ _ h0
    cases h1 : voices.find? (fun v => langIsHiIN v && nameIsVendor v) with
    | some v1 =>
      rw [h1] at hv
      obtain rfl : v1 = v := by simpa using hv
      obtain ⟨hp, i, hi, hlt⟩ := find?_first _ _ _ h1
      have hc := voiceClass_one maleWord v1 (n0 i v1 hi) hp
      refine ⟨i, hi, fun j u hu => ?_, fun j u hj hu => ?_⟩
      · have := voiceClass_pos maleWord u (n0 j u hu)
        omega
      · have := voiceClass_two_le maleWord u (n0 j u hu) (hlt j u hj hu)
        omega
    | none =>
      rw [h1] at hv
      have n1 := find?_none_all _ _ h1
      cases h2 : voices.find? (fun v => langHasHi v) with
      | some v2 =>
        rw [h2] at hv
        obtain rfl : v2 = v := by simpa using hv
        obtain ⟨hp, i, hi, hlt⟩ := find?_first _ _ _ h2
        have hc := voiceClass_two maleWord v2 (n0 i v2 hi) (n1 i v2 hi) hp
        refine ⟨i, hi, fun j u hu => ?_, fun j u hj hu => ?_⟩
        · have := voiceClass_two_le maleWord u (n0 j u hu) (n1 j u hu)
          omega
        · have := voiceClass_three maleWord u (n0 j u hu) (n1 j u hu) (hlt j u hj hu)
          omega
      | none =>
        rw [h2] at hv
        have n2 := find?_none_all _ _ h2
        have hall : ∀ (j : Nat) (u : Voice), voices[j]? = some u →
            voiceClass maleWord u = 3 :=
          fun j u hu => voiceClass_three maleWord u (n0 j u hu) (n1 j u hu) (n2 j u hu)
        have hv0 : voices[0]? = some v := by
          cases voices with
          | nil => simp at hv
          | cons a rest => simpa using hv
        refine ⟨0, hv0, fun j u hu => ?_, fun j u hj _ => absurd hj (Nat.not_lt_zero j)⟩
        rw [hall 0 v hv0, hall j u hu]

theorem voiceClass_eq_zero_iff (maleWord : List Char) (u : Voice) :
    voiceClass maleWord u = 0 ↔ (langIsHiIN u && nameIsMale maleWord u) = true := by
  constructor
  · intro h
    cases hm : (langIsHiIN u && nameIsMale maleWord u) with
    | true => rfl
    | false =>
      have := voiceClass_pos maleWord u hm
      omega
  · exact voiceClass_zero maleWord u

/-- C8 (as amended). On every voice list in which no name contains `female`,
`chooseHindiMaleVoice` returns `null` exactly for an empty list, and otherwise the
first voice, in list order, of the best class present, where the classes are, from
best to worst: (1) language tag containing `hi-IN` or `hi_IN` and name containing
`male` or the non-ASCII word of the pattern, (2) language tag containing `hi-IN` or
`hi_IN` and name containing `Google`, `Microsoft` or `Apple`, (3) language tag
containing `hi` anywhere, (4) every other voice. Every test is a search anywhere in
the string that ignores case. On such a list no voice of class (1) has `female` in
its name. For the voices `[{lang:"en-US"}, {lang:"hi-IN", name:"Google Hindi Male"}]`
the second is returned. Lists with a name containing `female` are not covered. -/
theorem chooseHindiMaleVoice_priority (maleWord : List Char) (voices : List Voice)
    (hf : ∀ v ∈ voices, searchCI "female".toList v.name = false) :
    (chooseHindiMaleVoice maleWord voices = none ↔ voices = [])
    ∧ (∀ v, chooseHindiMaleVoice maleWord voices = some v →
        ∃ i, voices[i]? = some v
          ∧ (∀ (j : Nat) (u : Voice), voices[j]? = some u →
              voiceClass maleWord v ≤ voiceClass maleWord u)
          ∧ (∀ (j : Nat) (u : Voice), j < i → voices[j]? = some u →
              voiceClass maleWord v < voiceClass maleWord u))
    ∧ (∀ u ∈ voices, voiceClass maleWord u = 0 ↔
        (langIsHiIN u = true ∧ nameIsMale maleWord u = true
          ∧ searchCI "female".toList u.name = false))
    ∧ (∀ name, chooseHindiMaleVoice maleWord
        [⟨"en-US", name⟩, ⟨"hi-IN", "Google Hindi Male"⟩]
        = some ⟨"hi-IN", "Google Hindi Male"⟩) := by
  refine ⟨?_, chooseHindiMaleVoice_first_of_best maleWord voices, ?_, ?_⟩
  · constructor
    · intro h
      cases voices with
      | nil => rfl
      | cons a rest =>
        exfalso
        unfold chooseHindiMaleVoice at h
        split at h
        · simp at h
        · simp at h
    · rintro rfl
      rfl
  · intro u hu
    rw [voiceClass_eq_zero_iff, Bool.and_eq_true]
    constructor
    · rintro ⟨h1, h2⟩
      exact ⟨h1, h2, hf u hu⟩
    · rintro ⟨h1, h2, -⟩
      exact ⟨h1, h2⟩
  · intro name
    have h1 : langIsHiIN ⟨"en-US", name⟩ = false := by
      show (searchCI "hi-IN".toList "en-US" || searchCI "hi_IN".toList "en-US") = false
      decide
    have h2 : langIsHiIN ⟨"hi-IN", "Google Hindi Male"⟩ = true := by decide
    have h3 : searchCI "male".toList "Google Hindi Male" = true := by decide
    have h4 : nameIsMale maleWord ⟨"hi-IN", "Google Hindi Male"⟩ = true := by
      show (searchCI "male".toList "Google Hindi Male"
        || searchCI maleWord "Google Hindi Male") = true
      rw [h3]
      rfl
    simp only [chooseHindiMaleVoice, firstMatch, priorityMatches, List.find?, h1, h2, h4,
      Bool.false_and, Bool.true_and, Bool.and_self]

/-- The voice list of the specification's example, which holds no name containing
`female`: the second voice is returned, at index `1`, and it is of the best class. -/
theorem chooseHindiMaleVoice_priority_witness :
    (∀ v ∈ ([⟨"en-US", "undefined"⟩, ⟨"hi-IN", "Google Hindi Male"⟩] : List Voice),
      searchCI "female".toList v.name = false)
    ∧ ∃ i, ([⟨"en-US", "undefined"⟩, ⟨"hi-IN", "Google Hindi Male"⟩] : List Voice)[i]?
          = some ⟨"hi-IN", "Google Hindi Male"⟩
        ∧ (∀ (j : Nat) (u : Voice),
            ([⟨"en-US", "undefined"⟩, ⟨"hi-IN", "Google Hindi Male"⟩] : List Voice)[j]?
              = some u →
            voiceClass "पुरुष".toList ⟨"hi-IN", "Google Hindi Male"⟩
              ≤ voiceClass "पुरुष".toList u)
        ∧ (∀ (j : Nat) (u : Voice), j < i →
            ([⟨"en-US", "undefined"⟩, ⟨"hi-IN", "Google Hindi Male"⟩] : List Voice)[j]?
              = some u →
            voiceClass "पुरुष".toList ⟨"hi-IN", "Google Hindi Male"⟩
              < voiceClass "पुरुष".toList u) :=
  ⟨by decide,
    (chooseHindiMaleVoice_priority "पुरुष".toList
      [⟨"en-US", "undefined"⟩, ⟨"hi-IN", "Google Hindi Male"⟩] (by decide)).2.1
      ⟨"hi-IN", "Google Hindi Male"⟩ (by decide)⟩

/-- The name test outside the lists covered above: `Female` contains `male`, so a
voice named `Lekha Female` passes the first matcher and is returned ahead of a Google
voice, against the comment `Prefer hi-IN male or Google voices`. -/
theorem female_name_passes_male_test :
    chooseHindiMaleVoice "पुरुष".toList
        [⟨"hi-IN", "Google Hindi"⟩, ⟨"hi-IN", "Lekha Female"⟩]
      = some ⟨"hi-IN", "Lekha Female"⟩
    ∧ voiceClass "पुरुष".toList ⟨"hi-IN", "Lekha Female"⟩ = 0
    ∧ voiceClass "पुरुष".toList ⟨"hi-IN", "Google Hindi"⟩ = 1 := by
  decide

/-- C8, counterexample. A voice whose language tag contains `hi` without beginning
with it (`chi`) is chosen over the first voice, although no voice of the list has a
language tag beginning with `hi`: the policy as worded returns the first voice. -/
theorem chooseHindiMaleVoice_matches_inside_tag :
    chooseHindiMaleVoice "पुरुष".toList [⟨"en-US", "Alex"⟩, ⟨"chi", "Ting"⟩]
      = some ⟨"chi", "Ting"⟩
    ∧ specChooseVoice "पुरुष".toList [⟨"en-US", "Alex"⟩, ⟨"chi", "Ting"⟩]
      = some ⟨"en-US", "Alex"⟩
    ∧ langPrefixIsHi ⟨"chi", "Ting"⟩ = false := by
  decide

/-! ### Rounding to doubles -/

theorem roundHalfEven_mono {a b : ℚ} (h : a ≤ b) : roundHalfEven a ≤ roundHalfEven b := by
  have hf : ⌊a⌋ ≤ ⌊b⌋ := Int.floor_mono h
  rcases hf.lt_or_eq with hlt | heq
  · have h1 : roundHalfEven a ≤ ⌊a⌋ + 1 := by
      unfold roundHalfEven
      split_ifs <;> omega
    have h2 : ⌊b⌋ ≤ roundHalfEven b := by
      unfold roundHalfEven
      split_ifs <;> omega
    omega
  · unfold roundHalfEven
    rw [heq]
    split_ifs <;> first | omega | (exfalso; linarith)

theorem roundHalfEven_intCast (n : ℤ) : roundHalfEven (n : ℚ) = n := by
  simp [roundHalfEven]

theorem roundHalfEven_eq_of_near (q : ℚ) (m : ℤ) (h : |q - m| < 1 / 2) :
    roundHalfEven q = m := by
  rw [abs_lt] at h
  obtain ⟨h1, h2⟩ := h
  rcases le_or_lt (m : ℚ) q with hle | hlt
  · have hfl : ⌊q⌋ = m := Int.floor_eq_iff.mpr ⟨hle, by linarith⟩
    unfold roundHalfEven
    rw [hfl, if_pos (by linarith)]
  · have hfl : ⌊q⌋ = m - 1 := Int.floor_eq_iff.mpr ⟨by push_cast; linarith, by push_cast; linarith⟩
    unfold roundHalfEven
    rw [hfl, if_neg (by push_cast; linarith), if_pos (by push_cast; linarith)]
    omega

theorem binade_eq (x : ℚ) (e : ℤ) (h1 : (2 : ℚ) ^ e ≤ |x|) (h2 : |x| < (2 : ℚ) ^ (e + 1))
    (h3 : -1022 ≤ e) : binade x = e := by
  have hpos : 0 < |x| := lt_of_lt_of_le (by positivity) h1
  have hlog : Int.log 2 |x| = e := by
    apply le_antisymm
    · have := (Int.lt_zpow_iff_log_lt (R := ℚ) (b := 2) (by norm_num) hpos).mp
        (by simpa using h2)
      omega
    · exact (Int.zpow_le_iff_le_log (R := ℚ) (b := 2) (by norm_num) hpos).mp (by simpa using h1)
  unfold binade
  rw [hlog]
  exact max_eq_left h3

theorem round_eq_of_near (x : ℚ) (e m : ℤ) (h1 : (2 : ℚ) ^ e ≤ |x|)
    (h2 : |x| < (2 : ℚ) ^ (e + 1)) (h3 : -1022 ≤ e)
    (hm : |x / (2 : ℚ) ^ (e - 52) - m| < 1 / 2) :
    Number.round x = m * (2 : ℚ) ^ (e - 52) := by
  unfold Number.round ulp
  rw [binade_eq x e h1 h2 h3, roundHalfEven_eq_of_near _ m hm]

theorem round_zero : Number.round 0 = 0 := by
  simp [Number.round, roundHalfEven]

theorem ulp_pos (x : ℚ) : 0 < ulp x := by
  unfold ulp
  positivity

theorem round_nonneg {x : ℚ} (h : 0 ≤ x) : 0 ≤ Number.round x := by
  unfold Number.round
  have h0 : (0 : ℤ) ≤ roundHalfEven (x / ulp x) := by
    have := roundHalfEven_mono (a := 0) (b := x / ulp x) (div_nonneg h (ulp_pos x).le)
    simpa [roundHalfEven] using this
  exact mul_nonneg (by exact_mod_cast h0) (ulp_pos x).le

theorem scale53 (e : ℤ) : ((2 ^ 53 : ℤ) : ℚ) * (2 : ℚ) ^ (e - 52) = (2 : ℚ) ^ (e + 1) := by
  have h : ((2 ^ 53 : ℤ) : ℚ) = (2 : ℚ) ^ (53 : ℤ) := by norm_num
  rw [h, ← zpow_add₀ (by norm_num)]
  congr 1
  omega

theorem scale52 (e : ℤ) : ((2 ^ 52 : ℤ) : ℚ) * (2 : ℚ) ^ (e - 52) = (2 : ℚ) ^ e := by
  have h : ((2 ^ 52 : ℤ) : ℚ) = (2 : ℚ) ^ (52 : ℤ) := by norm_num
  rw [h, ← zpow_add₀ (by norm_num)]
  congr 1
  omega

theorem round_mono {x y : ℚ} (hx : 0 ≤ x) (hxy : x ≤ y) : Number.round x ≤ Number.round y := by
  rcases hx.eq_or_lt with rfl | hpos
  · rw [round_zero]
    exact round_nonneg hxy
  have hypos : 0 < y := lt_of_lt_of_le hpos hxy
  have hlog : Int.log 2 |x| ≤ Int.log 2 |y| := by
    rw [abs_of_pos hpos, abs_of_pos hypos]
    exact Int.log_mono_right hpos hxy
  have hb : binade x ≤ binade y := max_le_max hlog le_rfl
  rcases hb.lt_or_eq with hlt | heq
  · -- different binades
    have hby : binade y = Int.log 2 |y| := by
      unfold binade at hlt ⊢
      rcases le_total (Int.log 2 |y|) (-1022) with h | h
      · rw [max_eq_right h] at hlt
        have : (-1022 : ℤ) ≤ max (Int.log 2 |x|) (-1022) := le_max_right _ _
        omega
      · exact max_eq_left h
    have hylow : (2 : ℚ) ^ binade y ≤ y := by
      rw [hby, abs_of_pos hypos]
      simpa using Int.zpow_log_le_self (R := ℚ) (b := 2) (by norm_num) hypos
    have hxup : x < (2 : ℚ) ^ (binade x + 1) := by
      have h1 : x < (2 : ℚ) ^ (Int.log 2 x + 1) := by
        simpa using Int.lt_zpow_succ_log_self (R := ℚ) (b := 2) (by norm_num) x
      have h2 : Int.log 2 x + 1 ≤ binade x + 1 := by
        unfold binade
        rw [abs_of_pos hpos]
        have := le_max_left (Int.log 2 x) (-1022)
        omega
      exact lt_of_lt_of_le h1 (zpow_le_zpow_right₀ (by norm_num) h2)
    have hrx : Number.round x ≤ (2 : ℚ) ^ (binade x + 1) := by
      unfold Number.round ulp
      have hq : x / (2 : ℚ) ^ (binade x - 52) ≤ ((2 ^ 53 : ℤ) : ℚ) := by
        rw [div_le_iff₀ (by positivity)]
        rw [scale53]
        exact hxup.le
      have := roundHalfEven_mono hq
      rw [roundHalfEven_intCast] at this
      calc (roundHalfEven (x / (2 : ℚ) ^ (binade x - 52)) : ℚ) * (2 : ℚ) ^ (binade x - 52)
          ≤ ((2 ^ 53 : ℤ) : ℚ) * (2 : ℚ) ^ (binade x - 52) :=
            mul_le_mul_of_nonneg_right (by exact_mod_cast this) (by positivity)
        _ = (2 : ℚ) ^ (binade x + 1) := scale53 _
    have hry : (2 : ℚ) ^ binade y ≤ Number.round y := by
      unfold Number.round ulp
      have hq : ((2 ^ 52 : ℤ) : ℚ) ≤ y / (2 : ℚ) ^ (binade y - 52) := by
        rw [le_div_iff₀ (by positivity)]
        rw [scale52]
        exact hylow
      have := roundHalfEven_mono hq
      rw [roundHalfEven_intCast] at this
      calc (2 : ℚ) ^ binade y = ((2 ^ 52 : ℤ) : ℚ) * (2 : ℚ) ^ (binade y - 52) :=
            (scale52 _).symm
        _ ≤ (roundHalfEven (y / (2 : ℚ) ^ (binade y - 52)) : ℚ) * (2 : ℚ) ^ (binade y - 52) :=
            mul_le_mul_of_nonneg_right (by exact_mod_cast this) (by positivity)
    have hstep : (2 : ℚ) ^ (binade x + 1) ≤ (2 : ℚ) ^ binade y :=
      zpow_le_zpow_right₀ (by norm_num) (by omega)
    linarith
  · -- same binade
    unfold Number.round ulp
    rw [heq]
    have hq : x / (2 : ℚ) ^ (binade y - 52) ≤ y / (2 : ℚ) ^ (binade y - 52) :=
      div_le_div_of_nonneg_right hxy (by positivity)
    exact mul_le_mul_of_nonneg_right (by exact_mod_cast roundHalfEven_mono hq) (by positivity)
theorem roundHalfEven_tie_even (q : ℚ) (m : ℤ) (hm : m % 2 = 0)
    (h : q = m - 1 / 2 ∨ q = m + 1 / 2) : roundHalfEven q = m := by
  rcases h with h | h
  · have hfl : ⌊q⌋ = m - 1 :=
      Int.floor_eq_iff.mpr ⟨by push_cast; linarith, by push_cast; linarith⟩
    unfold roundHalfEven
    rw [hfl, if_neg (by push_cast; linarith), if_neg (by push_cast; linarith),
      if_neg (by omega)]
    omega
  · have hfl : ⌊q⌋ = m := Int.floor_eq_iff.mpr ⟨by linarith, by linarith⟩
    unfold roundHalfEven
    rw [hfl, if_neg (by linarith), if_neg (by linarith), if_pos hm]

theorem round_eq_of_tie (x : ℚ) (e m : ℤ) (h1 : (2 : ℚ) ^ e ≤ |x|)
    (h2 : |x| < (2 : ℚ) ^ (e + 1)) (h3 : -1022 ≤ e) (hm : m % 2 = 0)
    (ht : x / (2 : ℚ) ^ (e - 52) = m - 1 / 2 ∨ x / (2 : ℚ) ^ (e - 52) = m + 1 / 2) :
    Number.round x = m * (2 : ℚ) ^ (e - 52) := by
  unfold Number.round ulp
  rw [binade_eq x e h1 h2 h3, roundHalfEven_tie_even _ m hm ht]

/-! ### The doubles of the audio parameters -/

theorem lit_9 :
    lit (9 / 100) = 3242591731706757 / 36028797018963968 := by
  unfold lit
  rw [round_eq_of_near _ (-4) 6485183463413514 (by norm_num [abs_of_pos])
    (by norm_num [abs_of_pos]) (by norm_num) (by norm_num [abs_lt])]
  norm_num

theorem lit_4 :
    lit (4 / 100) = 5764607523034235 / 144115188075855872 := by
  unfold lit
  rw [round_eq_of_near _ (-5) 5764607523034235 (by norm_num [abs_of_pos])
    (by norm_num [abs_of_pos]) (by norm_num) (by norm_num [abs_lt])]
  norm_num

theorem lit_13 :
    lit (13 / 100) = 1170935903116329 / 9007199254740992 := by
  unfold lit
  rw [round_eq_of_near _ (-3) 4683743612465316 (by norm_num [abs_of_pos])
    (by norm_num [abs_of_pos]) (by norm_num) (by norm_num [abs_lt])]
  norm_num

theorem lit_8 :
    lit (8 / 100) = 5764607523034235 / 72057594037927936 := by
  unfold lit
  rw [round_eq_of_near _ (-4) 5764607523034235 (by norm_num [abs_of_pos])
    (by norm_num [abs_of_pos]) (by norm_num) (by norm_num [abs_lt])]
  norm_num

theorem lit_2 :
    lit (2 / 100) = 5764607523034235 / 288230376151711744 := by
  unfold lit
  rw [round_eq_of_near _ (-6) 5764607523034235 (by norm_num [abs_of_pos])
    (by norm_num [abs_of_pos]) (by norm_num) (by norm_num [abs_lt])]
  norm_num

theorem lit_10 :
    lit (10 / 100) = 3602879701896397 / 36028797018963968 := by
  unfold lit
  rw [round_eq_of_near _ (-4) 7205759403792794 (by norm_num [abs_of_pos])
    (by norm_num [abs_of_pos]) (by norm_num) (by norm_num [abs_lt])]
  norm_num

theorem round_c9 :
    Number.round (3242591731706757 / 36028797018963968) = 3242591731706757 / 36028797018963968 := by
  rw [round_eq_of_near _ (-4) 6485183463413514 (by norm_num [abs_of_pos])
    (by norm_num [abs_of_pos]) (by norm_num) (by norm_num [abs_lt])]
  norm_num

theorem round_c4 :
    Number.round (5764607523034235 / 144115188075855872) = 5764607523034235 / 144115188075855872 := by
  rw [round_eq_of_near _ (-5) 5764607523034235 (by norm_num [abs_of_pos])
    (by norm_num [abs_of_pos]) (by norm_num) (by norm_num [abs_lt])]
  norm_num

theorem round_c2 :
    Number.round (5764607523034235 / 288230376151711744) = 5764607523034235 / 288230376151711744 := by
  rw [round_eq_of_near _ (-6) 5764607523034235 (by norm_num [abs_of_pos])
    (by norm_num [abs_of_pos]) (by norm_num) (by norm_num [abs_lt])]
  norm_num

theorem round_c9_add_c4 :
    Number.round (3242591731706757 / 36028797018963968 + 5764607523034235 / 144115188075855872) = 1170935903116329 / 9007199254740992 := by
  rw [round_eq_of_near _ (-3) 4683743612465316 (by norm_num [abs_of_pos])
    (by norm_num [abs_of_pos]) (by norm_num) (by norm_num [abs_lt])]
  norm_num

theorem round_six :
    Number.round (6) = 6 := by
  rw [round_eq_of_near _ 2 6755399441055744 (by norm_num [abs_of_pos])
    (by norm_num [abs_of_pos]) (by norm_num) (by norm_num [abs_lt])]
  norm_num

theorem round_rmax :
    Number.round (9007199254740991 / 9007199254740992) = 9007199254740991 / 9007199254740992 := by
  rw [round_eq_of_near _ (-1) 9007199254740991 (by norm_num [abs_of_pos])
    (by norm_num [abs_of_pos]) (by norm_num) (by norm_num [abs_lt])]
  norm_num

theorem round_rmax_mul_c4 :
    Number.round (9007199254740991 / 9007199254740992 * (5764607523034235 / 144115188075855872)) = 2882303761517117 / 72057594037927936 := by
  rw [round_eq_of_near _ (-5) 5764607523034234 (by norm_num [abs_of_pos])
    (by norm_num [abs_of_pos]) (by norm_num) (by norm_num [abs_lt])]
  norm_num

theorem round_c9_add_p :
    Number.round (3242591731706757 / 36028797018963968 + 2882303761517117 / 72057594037927936) = 1170935903116329 / 9007199254740992 := by
  rw [round_eq_of_tie _ (-3) 4683743612465316 (by norm_num [abs_of_pos])
    (by norm_num [abs_of_pos]) (by norm_num) (by norm_num) (Or.inl (by norm_num))]
  norm_num

theorem round_rmax_mul_ten :
    Number.round (9007199254740991 / 9007199254740992 * 10) = 5629499534213119 / 562949953421312 := by
  rw [round_eq_of_near _ 3 5629499534213119 (by norm_num [abs_of_pos])
    (by norm_num [abs_of_pos]) (by norm_num) (by norm_num [abs_lt])]
  norm_num

theorem round_six_add_d1 :
    Number.round (6 + 5629499534213119 / 562949953421312) = 9007199254740991 / 562949953421312 := by
  rw [round_eq_of_near _ 3 9007199254740991 (by norm_num [abs_of_pos])
    (by norm_num [abs_of_pos]) (by norm_num) (by norm_num [abs_lt])]
  norm_num

theorem round_rmax_mul_c8 :
    Number.round (9007199254740991 / 9007199254740992 * (5764607523034235 / 72057594037927936)) = 2882303761517117 / 36028797018963968 := by
  rw [round_eq_of_near _ (-4) 5764607523034234 (by norm_num [abs_of_pos])
    (by norm_num [abs_of_pos]) (by norm_num) (by norm_num [abs_lt])]
  norm_num

theorem round_v_add_c2 :
    Number.round (2882303761517117 / 36028797018963968 + 5764607523034235 / 288230376151711744) = 7205759403792793 / 72057594037927936 := by
  rw [round_eq_of_near _ (-4) 7205759403792793 (by norm_num [abs_of_pos])
    (by norm_num [abs_of_pos]) (by norm_num) (by norm_num [abs_lt])]
  norm_num

theorem round_half :
    Number.round (1 / 2) = 1 / 2 := by
  rw [round_eq_of_near _ (-1) 4503599627370496 (by norm_num [abs_of_pos])
    (by norm_num [abs_of_pos]) (by norm_num) (by norm_num [abs_lt])]
  norm_num

theorem round_neg_thousand :
    Number.round ((-1) * 1000) = (-1000) := by
  rw [round_eq_of_near _ 9 (-8796093022208000) (by norm_num [abs_of_neg])
    (by norm_num [abs_of_neg]) (by norm_num) (by norm_num [abs_lt])]
  norm_num
theorem double_below_one (r : ℚ) (hr : Number.round r = r) (h1 : r < 1) :
    r ≤ 9007199254740991 / 9007199254740992 := by
  by_contra hcon
  push_neg at hcon
  have hb : binade r = -1 :=
    binade_eq r (-1) (by rw [abs_of_pos (by linarith)]; norm_num; linarith)
      (by rw [abs_of_pos (by linarith)]; norm_num; linarith) (by norm_num)
  unfold Number.round ulp at hr
  rw [hb] at hr
  have hu : (2 : ℚ) ^ ((-1 : ℤ) - 52) = 1 / 9007199254740992 := by norm_num
  rw [hu] at hr
  generalize roundHalfEven (r / (1 / 9007199254740992)) = k at hr
  have hk1 : (9007199254740991 : ℚ) < k := by linarith
  have hk2 : (k : ℚ) < 9007199254740992 := by linarith
  have hk1' : (9007199254740991 : ℤ) < k := by exact_mod_cast hk1
  have hk2' : k < (9007199254740992 : ℤ) := by exact_mod_cast hk2
  omega

theorem lfoRate_bounds (r : ℚ) (h0 : 0 ≤ r) (h1 : r < 1) :
    lit (9 / 100) ≤ lfoRate r ∧ lfoRate r ≤ lit (13 / 100) := by
  unfold lfoRate Number.add Number.mul
  rw [lit_13, lit_9, lit_4]
  have hp0 : 0 ≤ Number.round (r * (5764607523034235 / 144115188075855872)) :=
    round_nonneg (by positivity)
  have hp1 : Number.round (r * (5764607523034235 / 144115188075855872))
      ≤ 5764607523034235 / 144115188075855872 := by
    have := round_mono (x := r * (5764607523034235 / 144115188075855872))
      (y := 5764607523034235 / 144115188075855872) (by positivity) (by linarith)
    rwa [round_c4] at this
  constructor
  · have := round_mono (x := 3242591731706757 / 36028797018963968)
      (y := 3242591731706757 / 36028797018963968
        + Number.round (r * (5764607523034235 / 144115188075855872)))
      (by norm_num) (by linarith)
    rwa [round_c9] at this
  · have := round_mono
      (x := 3242591731706757 / 36028797018963968
        + Number.round (r * (5764607523034235 / 144115188075855872)))
      (y := 3242591731706757 / 36028797018963968 + 5764607523034235 / 144115188075855872)
      (by positivity) (by linarith)
    rwa [round_c9_add_c4] at this

theorem lfoDepth_bounds (r : ℚ) (hr : Number.round r = r) (h0 : 0 ≤ r) (h1 : r < 1) :
    6 ≤ lfoDepth r ∧ lfoDepth r < 16 := by
  have hmax := double_below_one r hr h1
  unfold lfoDepth Number.add Number.mul
  have hp0 : 0 ≤ Number.round (r * 10) := round_nonneg (by positivity)
  have hp1 : Number.round (r * 10) ≤ 5629499534213119 / 562949953421312 := by
    have := round_mono (x := r * 10) (y := 9007199254740991 / 9007199254740992 * 10)
      (by positivity) (by linarith)
    rwa [round_rmax_mul_ten] at this
  constructor
  · have := round_mono (x := 6) (y := 6 + Number.round (r * 10)) (by norm_num) (by linarith)
    rwa [round_six] at this
  · have := round_mono (x := 6 + Number.round (r * 10))
      (y := 6 + 5629499534213119 / 562949953421312) (by positivity) (by linarith)
    rw [round_six_add_d1] at this
    exact lt_of_le_of_lt this (by norm_num)

theorem swellTarget_bounds (r : ℚ) (hr : Number.round r = r) (h0 : 0 ≤ r) (h1 : r < 1) :
    lit (2 / 100) ≤ swellTarget r ∧ swellTarget r < lit (10 / 100) := by
  have hmax := double_below_one r hr h1
  unfold swellTarget Number.add Number.mul
  rw [lit_10, lit_8, lit_2]
  have hp0 : 0 ≤ Number.round (r * (5764607523034235 / 72057594037927936)) :=
    round_nonneg (by positivity)
  have hp1 : Number.round (r * (5764607523034235 / 72057594037927936))
      ≤ 2882303761517117 / 36028797018963968 := by
    have := round_mono (x := r * (5764607523034235 / 72057594037927936))
      (y := 9007199254740991 / 9007199254740992 * (5764607523034235 / 72057594037927936))
      (by positivity) (by linarith)
    rwa [round_rmax_mul_c8] at this
  constructor
  · have := round_mono (x := 5764607523034235 / 288230376151711744)
      (y := Number.round (r * (5764607523034235 / 72057594037927936))
        + 5764607523034235 / 288230376151711744)
      (by norm_num) (by linarith)
    rwa [round_c2] at this
  · have := round_mono
      (x := Number.round (r * (5764607523034235 / 72057594037927936))
        + 5764607523034235 / 288230376151711744)
      (y := 2882303761517117 / 36028797018963968 + 5764607523034235 / 288230376151711744)
      (by positivity) (by linarith)
    rw [round_v_add_c2] at this
    exact lt_of_le_of_lt this (by norm_num)

/-- C10 (as amended). For every double `r` with `0 ≤ r < 1`, the modulation depth
`6 + r * 10` lies in `[6, 16)` and the swell target `r * 0.08 + 0.02` in
`[0.02, 0.10)`; the rate `0.09 + r * 0.04` lies in the closed range `[0.09, 0.13]`.
The bounds are the doubles the decimal literals denote. -/
theorem audio_parameter_ranges (r : Number) (hr : Number.round r = r) (h0 : 0 ≤ r)
    (h1 : r < 1) :
    (lit (9 / 100) ≤ lfoRate r ∧ lfoRate r ≤ lit (13 / 100))
    ∧ (6 ≤ lfoDepth r ∧ lfoDepth r < 16)
    ∧ (lit (2 / 100) ≤ swellTarget r ∧ swellTarget r < lit (10 / 100)) :=
  ⟨lfoRate_bounds r h0 h1, lfoDepth_bounds r hr h0 h1, swellTarget_bounds r hr h0 h1⟩

/-- The ranges at the draw `1 / 2`. -/
theorem audio_parameter_ranges_witness :
    Number.round (1 / 2) = 1 / 2 ∧ (0 : ℚ) ≤ 1 / 2 ∧ (1 / 2 : ℚ) < 1
    ∧ (lit (9 / 100) ≤ lfoRate (1 / 2) ∧ lfoRate (1 / 2) ≤ lit (13 / 100))
    ∧ (6 ≤ lfoDepth (1 / 2) ∧ lfoDepth (1 / 2) < 16)
    ∧ (lit (2 / 100) ≤ swellTarget (1 / 2) ∧ swellTarget (1 / 2) < lit (10 / 100)) :=
  ⟨round_half, by norm_num, by norm_num,
    audio_parameter_ranges (1 / 2) round_half (by norm_num) (by norm_num)⟩

/-- C10, counterexample. The draw `r = 1 - 2 ^ (-53)`, the largest double below `1`,
gives the rate `0.09 + r * 0.04` the value of the double `0.13` exactly: the sum is
rounded to the nearest double. It is below neither the double `0.13` nor the real
number `0.13`. -/
theorem lfoRate_reaches_upper_bound :
    Number.round (9007199254740991 / 9007199254740992) = 9007199254740991 / 9007199254740992
    ∧ (0 : ℚ) ≤ 9007199254740991 / 9007199254740992
    ∧ (9007199254740991 / 9007199254740992 : ℚ) < 1
    ∧ lfoRate (9007199254740991 / 9007199254740992) = lit (13 / 100)
    ∧ ¬ lfoRate (9007199254740991 / 9007199254740992) < lit (13 / 100)
    ∧ ¬ lfoRate (9007199254740991 / 9007199254740992) < 13 / 100 := by
  have h : lfoRate (9007199254740991 / 9007199254740992) = lit (13 / 100) := by
    unfold lfoRate Number.add Number.mul
    rw [lit_13, lit_9, lit_4, round_rmax_mul_c4, round_c9_add_p]
  refine ⟨round_rmax, by norm_num, by norm_num, h, ?_, ?_⟩
  · rw [h]
    exact lt_irrefl _
  · rw [h, lit_13]
    norm_num

/-! ### Scripts with negative offsets -/

theorem lineTimers_mem (firstId : Nat) (lines : List Line) (item : Line) (h : item ∈ lines) :
    ∃ tm ∈ lineTimers firstId lines,
      tm.delayMs = Number.mul item.t 1000 ∧ tm.fn = .lineEvent item.text := by
  induction lines generalizing firstId with
  | nil => simp at h
  | cons a rest ih =>
    rcases List.mem_cons.mp h with rfl | hmem
    · exact ⟨_, List.mem_cons_self _ _, rfl, rfl⟩
    · obtain ⟨tm, htm, h1, h2⟩ := ih (firstId + 1) hmem
      exact ⟨tm, List.mem_cons_of_mem _ htm, h1, h2⟩

theorem runAll_spoken_perm (maleWord : List Char) (w : Window) (firstId : Nat)
    (lines : List Line) :
    (spoken (runAll maleWord w (speakHindiLines firstId lines)).log).Perm
      (lines.map (fun item => item.text)) := by
  have hperm : (hostOrder (speakHindiLines firstId lines).timers).Perm
      (speakHindiLines firstId lines).timers := List.perm_insertionSort _ _
  rw [runAll_log, spoken_timerEffects]
  refine (hperm.filterMap _).trans ?_
  rw [speakHindiLines_timers, List.filterMap_append, (lineTimers_texts firstId lines).2]
  cases lines.getLast? <;> simp [TimerFn.speech]

theorem runAll_captions_perm (maleWord : List Char) (w : Window) (firstId : Nat)
    (lines : List Line) :
    (captions (runAll maleWord w (speakHindiLines firstId lines)).log).Perm
      (lines.map (fun item => item.text) ++ (if lines = [] then [] else [""])) := by
  have hperm : (hostOrder (speakHindiLines firstId lines).timers).Perm
      (speakHindiLines firstId lines).timers := List.perm_insertionSort _ _
  rw [runAll_log, captions_timerEffects]
  refine (hperm.map _).trans ?_
  rw [speakHindiLines_timers, List.map_append, (lineTimers_texts firstId lines).1]
  cases hl : lines.getLast? with
  | none =>
    have hnil : lines = [] := List.getLast?_eq_none_iff.mp hl
    simp [hnil]
  | some last =>
    have hne : lines ≠ [] := by
      intro h
      simp [h] at hl
    simp [hne, TimerFn.caption]

/-- C6 (as amended). `speakHindiLines` rejects no script: it has no failing path and
checks no offset. Every line, whatever the sign of its offset `t`, gets a timer armed
with the delay `t * 1000` handed to the host unchanged, and that line is captioned and
spoken when the host has run the timers. -/
theorem every_line_is_scheduled (maleWord : List Char) (w : Window) (firstId : Nat)
    (lines : List Line) (item : Line) (h : item ∈ lines) :
    (∃ tm ∈ (speakHindiLines firstId lines).timers,
      tm.delayMs = Number.mul item.t 1000 ∧ tm.fn = .lineEvent item.text)
    ∧ item.text ∈ captions (runAll maleWord w (speakHindiLines firstId lines)).log
    ∧ item.text ∈ spoken (runAll maleWord w (speakHindiLines firstId lines)).log := by
  have hmem : item.text ∈ lines.map (fun item => item.text) := List.mem_map_of_mem _ h
  refine ⟨?_, ?_, ?_⟩
  · obtain ⟨tm, htm, h1, h2⟩ := lineTimers_mem firstId lines item h
    exact ⟨tm, by rw [speakHindiLines_timers]; exact List.mem_append_left _ htm, h1, h2⟩
  · exact (runAll_captions_perm maleWord w firstId lines).mem_iff.mpr
      (List.mem_append_left _ hmem)
  · exact (runAll_spoken_perm maleWord w firstId lines).mem_iff.mpr hmem

/-- A script whose only line has a negative offset. -/
theorem every_line_is_scheduled_witness :
    (⟨-1, "a"⟩ : Line) ∈ [(⟨-1, "a"⟩ : Line)]
    ∧ (∃ tm ∈ (speakHindiLines 1 [⟨-1, "a"⟩]).timers,
      tm.delayMs = Number.mul (-1) 1000 ∧ tm.fn = .lineEvent "a")
    ∧ "a" ∈ captions (runAll [] ⟨false, false, []⟩ (speakHindiLines 1 [⟨-1, "a"⟩])).log
    ∧ "a" ∈ spoken (runAll [] ⟨false, false, []⟩ (speakHindiLines 1 [⟨-1, "a"⟩])).log :=
  ⟨List.mem_singleton_self _,
    every_line_is_scheduled [] ⟨false, false, []⟩ 1 [⟨-1, "a"⟩] ⟨-1, "a"⟩
      (List.mem_singleton_self _)⟩

/-- C6, counterexample. A script whose only line has the offset `-1` is not rejected:
its timer is armed with the delay `-1000`, which the host treats as `0`, and when it
fires the line is captioned and spoken. -/
theorem negative_offset_is_scheduled :
    (speakHindiLines 1 [⟨-1, "a"⟩]).timers.head? = some ⟨1, -1000, .lineEvent "a"⟩
    ∧ hostDelay ⟨1, -1000, .lineEvent "a"⟩ = 0
    ∧ (fire [] ⟨false, false, []⟩ (speakHindiLines 1 [⟨-1, "a"⟩]) 1).log
        = [.onCaption "a", .triggerSpeak "a"] := by
  have hd : Number.mul (-1) 1000 = -1000 := by
    unfold Number.mul
    rw [round_neg_thousand]
  refine ⟨?_, ?_, ?_⟩
  · simp [speakHindiLines, scheduleLine, schedule, hd]
  · simp [hostDelay]
  · simp [fire, speakHindiLines, scheduleLine, schedule, fireTimer, runTimerFn, triggerSpeak]

/-! ### Invariants of the session controller -/

theorem noOverlap_append (active : Option Nat) (l l' : List AudioEvent) :
    noOverlap active (l ++ l') = (noOverlap active l && noOverlap (activeAfter active l) l') := by
  induction l generalizing active with
  | nil => simp [noOverlap, activeAfter]
  | cons e rest ih =>
    cases e with
    | started i => simp [noOverlap, activeAfter, ih, Bool.and_assoc]
    | stopped i => simp [noOverlap, activeAfter, ih]

theorem activeAfter_append (active : Option Nat) (l l' : List AudioEvent) :
    activeAfter active (l ++ l') = activeAfter (activeAfter active l) l' := by
  induction l generalizing active with
  | nil => simp [activeAfter]
  | cons e rest ih =>
    cases e with
    | started i => simp [activeAfter, ih]
    | stopped i => simp [activeAfter, ih]

theorem stopMusic_invariant (c : Controller) (hs : c.started = true)
    (hn : noOverlap none c.audioLog = true)
    (ha : activeAfter none c.audioLog = none ∨ activeAfter none c.audioLog = c.musicRef) :
    (stopMusic c).started = true ∧ noOverlap none (stopMusic c).audioLog = true
      ∧ activeAfter none (stopMusic c).audioLog = none
      ∧ (stopMusic c).muted = c.muted := by
  unfold stopMusic
  cases hm : c.musicRef with
  | none =>
    refine ⟨hs, hn, ?_, rfl⟩
    rcases ha with ha | ha
    · exact ha
    · rw [ha, hm]
  | some i =>
    refine ⟨hs, ?_, ?_, rfl⟩
    · simp [noOverlap_append, hn, noOverlap]
    · simp only [activeAfter_append, activeAfter]
      rcases ha with ha | ha
      · simp [ha]
      · simp [ha, hm]

theorem tryStartMusic_invariant (w : Window) (rand : Nat → Number) (c : Controller)
    (hs : c.started = true) (hm : c.muted = false)
    (hn : noOverlap none c.audioLog = true) (ha : activeAfter none c.audioLog = none) :
    AudioInvariant (tryStartMusic w rand c) := by
  unfold tryStartMusic
  cases w.hasAudio with
  | false => exact ⟨hs, hn, Or.inl ha⟩
  | true =>
    refine ⟨hs, ?_, Or.inr ⟨hm, ?_⟩⟩
    · simp [noOverlap_append, hn, noOverlap, ha]
    · simp [activeAfter_append, activeAfter]

theorem cleanupSpeech_frame (w : Window) (c : Controller) :
    (cleanupSpeech w c).started = c.started
    ∧ (cleanupSpeech w c).muted = c.muted
    ∧ (cleanupSpeech w c).musicRef = c.musicRef
    ∧ (cleanupSpeech w c).audioLog = c.audioLog := by
  unfold cleanupSpeech
  split <;> exact ⟨rfl, rfl, rfl, rfl⟩

theorem step_invariant (w : Window) (rand : Nat → Number) (c : Controller)
    (ev : ControllerEvent) (h : AudioInvariant c) :
    AudioInvariant (Controller.step w rand c ev) := by
  obtain ⟨hs, hn, ha⟩ := h
  cases ev with
  | clickStart => simpa [Controller.step, hs] using ⟨hs, hn, ha⟩
  | clickMute =>
    simp only [Controller.step, toggleMute]
    cases hmu : c.muted with
    | true =>
      have hnone : activeAfter none c.audioLog = none := by
        rcases ha with ha | ⟨hf, -⟩
        · exact ha
        · rw [hmu] at hf
          cases hf
      simpa using tryStartMusic_invariant w rand { c with muted := false } hs rfl hn hnone
    | false =>
      have := stopMusic_invariant { c with muted := true } hs hn
        (ha.imp id (fun h => h.2))
      simpa using ⟨this.1, this.2.1, Or.inl this.2.2.1⟩
  | frame h =>
    simp only [Controller.step, animationFrame]
    split
    · exact ⟨hs, hn, ha⟩
    · exact ⟨hs, hn, ha⟩
  | unmount =>
    simp only [Controller.step, AnimationExperience.unmount]
    obtain ⟨k1, k2, k3, k4⟩ := cleanupSpeech_frame w (cancelComponentFrame c)
    have := stopMusic_invariant (cleanupSpeech w (cancelComponentFrame c))
      (by rw [k1]; exact hs) (by rw [k4]; exact hn)
      (by rw [k4, k3]; exact ha.imp id (fun h => h.2))
    exact ⟨this.1, this.2.1, Or.inl this.2.2.1⟩

theorem foldl_step_invariant (w : Window) (rand : Nat → Number)
    (evs : List ControllerEvent) (c : Controller) (h : AudioInvariant c) :
    AudioInvariant (evs.foldl (Controller.step w rand) c) := by
  induction evs generalizing c with
  | nil => exact h
  | cons ev rest ih => exact ih _ (step_invariant w rand c ev h)

/-- When Start is the first thing that happens to the mounted component, no session is
ever started while an earlier one has not been stopped. -/
theorem no_overlap_when_started_first (w : Window) (rand : Nat → Number)
    (evs : List ControllerEvent) :
    noOverlap none (Controller.run w rand (.clickStart :: evs)).audioLog = true := by
  have h0 : AudioInvariant (Controller.step w rand Controller.init .clickStart) := by
    simp only [Controller.step, Controller.init, startAll, startAnimation, tryStartMusic]
    cases w.hasAudio with
    | false => exact ⟨rfl, rfl, Or.inl rfl⟩
    | true => exact ⟨rfl, rfl, Or.inr ⟨rfl, rfl⟩⟩
  exact (foldl_step_invariant w rand evs _ h0).2.1

theorem stop_iterate (n : Nat) (s : AudioSession) :
    (AudioSession.stop^[n] s).closeCalls = s.closeCalls + n
    ∧ (AudioSession.stop^[n + 1] s).running = false := by
  induction n generalizing s with
  | zero => exact ⟨rfl, rfl⟩
  | succ n ih =>
    obtain ⟨h1, h2⟩ := ih s.stop
    refine ⟨?_, ?_⟩
    · rw [Function.iterate_succ_apply, h1]
      simp only [AudioSession.stop]
      omega
    · rw [Function.iterate_succ_apply]
      exact h2

theorem tryStartMusic_frames (w : Window) (rand : Nat → Number) (c : Controller) :
    (tryStartMusic w rand c).rafRef = c.rafRef
    ∧ (tryStartMusic w rand c).nextFrame = c.nextFrame
    ∧ (tryStartMusic w rand c).pendingFrames = c.pendingFrames
    ∧ (tryStartMusic w rand c).resizeListeners = c.resizeListeners
    ∧ (tryStartMusic w rand c).started = c.started := by
  unfold tryStartMusic
  split <;> exact ⟨rfl, rfl, rfl, rfl, rfl⟩

theorem stopMusic_frames (c : Controller) :
    (stopMusic c).rafRef = c.rafRef
    ∧ (stopMusic c).nextFrame = c.nextFrame
    ∧ (stopMusic c).pendingFrames = c.pendingFrames
    ∧ (stopMusic c).resizeListeners = c.resizeListeners
    ∧ (stopMusic c).started = c.started := by
  unfold stopMusic
  split <;> exact ⟨rfl, rfl, rfl, rfl, rfl⟩

theorem cleanupSpeech_frames (w : Window) (c : Controller) :
    (cleanupSpeech w c).rafRef = c.rafRef
    ∧ (cleanupSpeech w c).nextFrame = c.nextFrame
    ∧ (cleanupSpeech w c).pendingFrames = c.pendingFrames
    ∧ (cleanupSpeech w c).resizeListeners = c.resizeListeners
    ∧ (cleanupSpeech w c).started = c.started := by
  unfold cleanupSpeech
  split <;> exact ⟨rfl, rfl, rfl, rfl, rfl⟩

theorem frameInvariant_of_eq (c c' : Controller) (h : FrameInvariant c)
    (e : c'.rafRef = c.rafRef ∧ c'.nextFrame = c.nextFrame
      ∧ c'.pendingFrames = c.pendingFrames ∧ c'.resizeListeners = c.resizeListeners
      ∧ c'.started = c.started) : FrameInvariant c' := by
  obtain ⟨e1, e2, e3, e4, e5⟩ := e
  unfold FrameInvariant
  rw [e1, e2, e3, e4, e5]
  exact h

theorem step_frameInvariant (w : Window) (rand : Nat → Number) (c : Controller)
    (ev : ControllerEvent) (h : FrameInvariant c) :
    FrameInvariant (Controller.step w rand c ev) := by
  cases ev with
  | clickStart =>
    simp only [Controller.step]
    split
    · exact h
    · obtain ⟨h1, h2, h3, -⟩ := h
      have hm : ∀ c0 : Controller, c0.rafRef = 0 → 1 ≤ c0.nextFrame →
          (∀ h ∈ c0.pendingFrames, 1 ≤ h) → FrameInvariant (startAnimation c0) := by
        intro c0 a1 a2 a3
        refine ⟨a1, by simp only [startAnimation]; omega, ?_, fun _ => ⟨?_, ?_⟩⟩
        · intro k hk
          simp only [startAnimation, List.mem_append, List.mem_singleton] at hk
          rcases hk with hk | rfl
          · exact a3 k hk
          · exact a2
        · simp [startAnimation]
        · simp [startAnimation]
      unfold startAll
      apply hm
      · simp only
        split
        · exact (tryStartMusic_frames w rand _).1.trans h1
        · exact h1
      · simp only
        split
        · exact (tryStartMusic_frames w rand _).2.1.symm ▸ h2
        · exact h2
      · simp only
        split
        · rw [(tryStartMusic_frames w rand _).2.2.1]
          exact h3
        · exact h3
  | clickMute =>
    simp only [Controller.step, toggleMute]
    split
    · exact frameInvariant_of_eq c _ h (tryStartMusic_frames w rand _)
    · exact frameInvariant_of_eq c _ h (stopMusic_frames _)
  | frame k =>
    obtain ⟨h1, h2, h3, h4⟩ := h
    simp only [Controller.step, animationFrame]
    split
    · refine ⟨h1, by simp only; omega, ?_, fun _ => ⟨by simp, (h4 ‹_›).2⟩⟩
      intro j hj
      simp only [List.mem_append, List.mem_filter, List.mem_singleton] at hj
      rcases hj with ⟨hj, -⟩ | rfl
      · exact h3 j hj
      · exact h2
    · exact ⟨h1, h2, h3, h4⟩
  | unmount =>
    simp only [Controller.step, AnimationExperience.unmount]
    have hkeep : (cancelComponentFrame c).pendingFrames = c.pendingFrames := by
      simp only [cancelComponentFrame, List.filter_eq_self]
      intro k hk
      have := h.2.2.1 k hk
      rw [h.1]
      simp only [ne_eq, decide_not, Bool.not_eq_true', decide_eq_false_iff_not]
      omega
    have h' : FrameInvariant (cancelComponentFrame c) :=
      frameInvariant_of_eq c _ h ⟨rfl, rfl, hkeep, rfl, rfl⟩
    exact frameInvariant_of_eq _ _
      (frameInvariant_of_eq _ _ h' (cleanupSpeech_frames w _)) (stopMusic_frames _)

/-- Whatever happens to the mounted component, unmounting included, once it has been
started a frame request of the render loop stays pending and its resize listener
registered: nothing ever cancels them. -/
theorem render_loop_never_cancelled (w : Window) (rand : Nat → Number)
    (evs : List ControllerEvent) :
    (Controller.run w rand evs).rafRef = 0
    ∧ ((Controller.run w rand evs).started = true →
        (Controller.run w rand evs).pendingFrames ≠ []
        ∧ (Controller.run w rand evs).resizeListeners ≠ []) := by
  have key : ∀ (evs : List ControllerEvent) (c : Controller), FrameInvariant c →
      FrameInvariant (evs.foldl (Controller.step w rand) c) := by
    intro evs
    induction evs with
    | nil => exact fun c h => h
    | cons ev rest ih => exact fun c h => ih _ (step_frameInvariant w rand c ev h)
  have h0 : FrameInvariant Controller.init :=
    ⟨rfl, by decide, by simp [Controller.init], by simp [Controller.init]⟩
  have := key evs Controller.init h0
  exact ⟨this.1, this.2.2.2⟩

end AnimationExperience
